import Mathlib

/-!
Verification of the boxframe tabular data engine (src/src/dataframe.ts,
src/src/boxframe.ts) against its natural-language specification.

The TypeScript sources are shallowly embedded: JavaScript values become the
inductive type `Val` (numbers are modelled as rationals, i.e. finite doubles;
`null` and `undefined` are kept distinct, as the source distinguishes them),
strings used by the query parser are modelled as `List Char`, JS `Map`s and
records become association lists in insertion order, thrown exceptions become
`Except String`, and `Array.prototype.sort` with a comparator becomes a stable
insertion sort driven by the same comparator.
-/

namespace Boxframe

/-- A JavaScript value as stored in a column (`DataValue` in types.ts):
string | number | boolean | Date | null | undefined.  Numbers are modelled as
rationals (finite doubles); a `Date` is modelled by its epoch-milliseconds
`getTime` value, since every embedded operation that touches a `Date`
(comparison via `valueOf`, `_createKey` via `getTime`) only consumes that
number. -/
inductive Val where
  | str (s : String)
  | num (q : ℚ)
  | bool (b : Bool)
  | date (t : Int)
  | null
  | undefV
deriving DecidableEq

/-- A row label (`Index` in types.ts): string | number.  Labels in the
embedded code are either user strings, default integer positions, or the
composite `a_b` strings synthesised by merge. -/
inductive Label where
  | str (s : String)
  | int (n : Int)
deriving DecidableEq

/-- JS loose `v == null`, true exactly for `null` and `undefined`. -/
def isMissingB : Val → Bool
  | .null => true
  | .undefV => true
  | _ => false

/-- JS strict equality `===` on the embedded value domain.  For primitives
this is value identity (`null === undefined` is false).  `Date === Date` in JS
is reference identity; it is modelled as `getTime` equality, which yields the
same results everywhere the embedded code uses `===` (the sort comparators
fall through to a `<`/`>` comparison that returns 0 for equal times anyway,
and parsed query literals are never `Date`s). -/
def jsStrictEq (a b : Val) : Bool := decide (a = b)

/-- JS `ToNumber` for the value kinds that can reach a relational comparison
(`null`/`undefined` are filtered out by the embedded code first, but are given
their JS values 0 / NaN).  `none` means NaN.  String-to-number parsing covers
plain decimal numerals; JS additionally accepts hex/exponent forms, which no
embedded call site feeds in. -/
def digitsToNat (ds : List Char) : Nat :=
  ds.foldl (fun n c => n * 10 + (c.toNat - 48)) 0

/-- Parse an unsigned plain decimal numeral (digits, optional fraction).
`none` models NaN. -/
def numParseUnsigned? (rest : List Char) : Option ℚ :=
  let intPart := rest.takeWhile Char.isDigit
  let rest2 := rest.dropWhile Char.isDigit
  match rest2 with
  | [] => if intPart = [] then none else some ((digitsToNat intPart : Int) : ℚ)
  | '.' :: frac =>
    if frac.all Char.isDigit ∧ (intPart ≠ [] ∨ frac ≠ []) then
      some ((digitsToNat intPart : ℚ) +
        (digitsToNat frac : ℚ) / ((10 : ℚ) ^ frac.length))
    else none
  | _ => none

/-- Parse a plain decimal numeral (optional sign, digits, optional
fraction). -/
def numParse? (s : List Char) : Option ℚ :=
  match s with
  | '-' :: r => (numParseUnsigned? r).map (fun q => -q)
  | '+' :: r => numParseUnsigned? r
  | r => numParseUnsigned? r

/-- JS `StringToNumber`: trims, empty string is 0, otherwise decimal parse. -/
def strToNum? (s : String) : Option ℚ :=
  let t := s.toList.dropWhile Char.isWhitespace |>.reverse.dropWhile Char.isWhitespace |>.reverse
  if t = [] then some 0 else numParse? t

def toNum? : Val → Option ℚ
  | .num q => some q
  | .bool b => some (if b then 1 else 0)
  | .date t => some (t : ℚ)
  | .str s => strToNum? s
  | .null => some 0
  | .undefV => none

/-- JS abstract relational comparison `a < b`; `none` models `undefined`
(a NaN operand).  Both operands strings: lexicographic; otherwise numeric. -/
def jsLtR (a b : Val) : Option Bool :=
  match a, b with
  | .str s, .str t => some (decide (s < t))
  | _, _ =>
    match toNum? a, toNum? b with
    | some x, some y => some (decide (x < y))
    | _, _ => none

/-- JS `a < b` (undefined comparison coerces to false). -/
def jsLt (a b : Val) : Bool := (jsLtR a b).getD false

/-- JS `a > b`. -/
def jsGt (a b : Val) : Bool := (jsLtR b a).getD false

/-- JS `a >= b`: false when the comparison is undefined (NaN), otherwise the
negation of `a < b`... note the JS spec evaluates `b < a` reversed; for the
embedded value domain the result is `!(a < b)` unless NaN. -/
def jsGe (a b : Val) : Bool :=
  match jsLtR a b with
  | some r => !r
  | none => false

/-- JS `a <= b`. -/
def jsLe (a b : Val) : Bool :=
  match jsLtR b a with
  | some r => !r
  | none => false

/-- JS `String(n)` for a number.  Integral doubles render as plain integers
(the only case any claim evaluates); the rendering of non-integral doubles
(shortest round-trip decimal in JS) is modelled as `num/den`, which no claim
inspects. -/
def renderNum (q : ℚ) : String :=
  if q.den = 1 then toString q.num else toString q.num ++ "/" ++ toString q.den

/-- JS `String(v)` for the values fed to `_createKey`- and key-building code
(after the null/Date special cases are peeled off there). -/
def jsValToString : Val → String
  | .str s => s
  | .num q => renderNum q
  | .bool b => if b then "true" else "false"
  | .date t => "Date " ++ toString t
  | .null => "null"
  | .undefV => "undefined"

/-- Label rendering for JS string interpolation. -/
def labelToString : Label → String
  | .str s => s
  | .int n => toString n

/-- Column dtypes ("int32" | "float64" | "string" | "bool" | "datetime"). -/
inductive DType where
  | int32
  | float64
  | string
  | bool
  | datetime
deriving DecidableEq

/-- An ISO-date-like string: starts with a `dddd-dd-dd` shape. -/
def isIsoLike (s : String) : Bool :=
  match s.toList with
  | a :: b :: c :: d :: '-' :: e :: f :: '-' :: g :: h :: _ =>
    a.isDigit && b.isDigit && c.isDigit && d.isDigit &&
      e.isDigit && f.isDigit && g.isDigit && h.isDigit
  | _ => false

/-- Modelled from the spec: dtype inference of the Series constructor
(series.ts is not under src/).  Spec §3: "Dtype is either supplied or
inferred from the first non-missing value (integer-valued numbers → int32,
fractional → float64, boolean → bool, ISO-date-like strings/timestamp objects
→ timestamp, else string)."  An all-missing column defaults to string. -/
def inferDType : Val → DType
  | .num q => if q.den = 1 then .int32 else .float64
  | .bool _ => .bool
  | .date _ => .datetime
  | .str s => if isIsoLike s then .datetime else .string
  | .null => .string
  | .undefV => .string

/-- Modelled from the spec: dtype of a whole column, inferred from the first
non-missing value. -/
def inferDTypeList (vs : List Val) : DType :=
  match vs.find? (fun v => !isMissingB v) with
  | some v => inferDType v
  | none => .string

/-- A Series: named, typed sequence of values (series.ts; the shared row
index is kept on the owning DataFrame). -/
structure Series where
  name : String
  values : List Val
  dtype : DType
deriving DecidableEq

/-- Build a Series the way the DataFrame constructor does: dtype inferred
from the values (no explicit dtype is ever passed there). -/
def mkSeries (name : String) (values : List Val) : Series :=
  ⟨name, values, inferDTypeList values⟩

/-- A DataFrame: ordered column names, row labels, and a name → Series map
in insertion order (dataframe.ts). -/
structure DataFrame where
  columns : List String
  index : List Label
  data : List (String × Series)
deriving DecidableEq

/-- Association-list lookup (JS `Map.get` / record access): first entry whose
key matches. -/
def alookup {β : Type} (k : String) : List (String × β) → Option β
  | [] => none
  | p :: rest => if p.1 = k then some p.2 else alookup k rest

/-- Association-list insert-or-overwrite (JS `record[k] = v` / `Map.set`):
overwrite in place keeps the original position, otherwise append. -/
def upsert {β : Type} (rec : List (String × β)) (k : String) (v : β) :
    List (String × β) :=
  match rec with
  | [] => [(k, v)]
  | p :: rest => if p.1 = k then (k, v) :: rest else p :: upsert rest k v

/-- Append a value to an entry of a record of lists (JS
`record[name].push(v)`); an absent entry (never hit by the embedded callers,
which pre-initialise every name) would be created. -/
def pushEntry (rec : List (String × List Val)) (k : String) (v : Val) :
    List (String × List Val) :=
  match rec with
  | [] => [(k, [v])]
  | p :: rest => if p.1 = k then (p.1, p.2 ++ [v]) :: rest else p :: pushEntry rest k v

/-- Default integer range index `0..n-1`. -/
def defRange (n : Nat) : List Label :=
  (List.range n).map (fun i => Label.int (Int.ofNat i))

/-- The DataFrame constructor (dataframe.ts lines 18-46): columns default to
the data keys, the index defaults to `0..n-1` sized by the first column, and
every column's length is validated against the index length. -/
def defaultIndex (d : List (String × List Val)) : List Label :=
  match d with
  | [] => []
  | p :: _ => defRange p.2.length

def mkDataFrame (d : List (String × List Val)) (idx? : Option (List Label))
    (cols? : Option (List String)) : Except String DataFrame :=
  if d.all (fun p => p.2.length = (idx?.getD (defaultIndex d)).length) then
    .ok ⟨cols?.getD (d.map Prod.fst), idx?.getD (defaultIndex d),
      d.map (fun p => (p.1, mkSeries p.1 p.2))⟩
  else
    .error "Column length must match index length"

/-- Number of rows (`this.length` / `shape[0]`). -/
def DataFrame.rowCount (df : DataFrame) : Nat := df.index.length

/-- Well-formedness guaranteed by the constructor: every column holds one
value per row. -/
def DataFrame.WFb (df : DataFrame) : Bool :=
  df.data.all (fun p => p.2.values.length = df.index.length)

/-- The column-name list coincides with the data map keys (true for every
frame built without a reordering `columns` option). -/
def DataFrame.WFcolsb (df : DataFrame) : Bool :=
  decide (df.columns = df.data.map Prod.fst)

/-- Select the entries of `l` at the `true` positions of `mask`
(the `if (mask[i])` loops of `filter`). -/
def selectMask {α : Type} (mask : List Bool) (l : List α) : List α :=
  (mask.zip l).filterMap (fun p => if p.1 then some p.2 else none)

/-- DataFrame.filter (dataframe.ts lines 183-211): mask length must equal the
row count, then rows at `true` positions are kept in order, with their
labels. -/
def DataFrame.filter (df : DataFrame) (mask : List Bool) :
    Except String DataFrame :=
  if mask.length ≠ df.rowCount then
    .error ("Mask length (" ++ toString mask.length ++
      ") must match DataFrame length (" ++ toString df.rowCount ++ ")")
  else
    mkDataFrame (df.data.map (fun p => (p.1, selectMask mask p.2.values)))
      (some (selectMask mask df.index)) none

/-- The effective new name of a column under a rename map: JS
`columns[oldColName] || oldColName`, so a falsy mapping (absent, or the empty
string) keeps the old name. -/
def effName (m : List (String × String)) (old : String) : String :=
  match alookup old m with
  | some n => if n = "" then old else n
  | none => old

/-- DataFrame.rename (dataframe.ts lines 288-302).  The source dereferences
`this.data.get(oldColName)!` for every listed column; a column name missing
from the data map would crash (modelled as an error). -/
def DataFrame.rename (df : DataFrame) (m : List (String × String)) :
    Except String DataFrame :=
  if df.columns.all (fun c => (alookup c df.data).isSome) then
    let newPairs := df.columns.map (fun old =>
      (effName m old, ((alookup old df.data).map Series.values).getD []))
    let newData := newPairs.foldl (fun rec p => upsert rec p.1 p.2) []
    mkDataFrame newData (some df.index) (some (df.columns.map (effName m)))
  else
    .error "TypeError: cannot read values of undefined"

/-! ## Sort engine -/

/-- JS `Array.prototype.sort(cmp)` modelled as a stable insertion sort: an
element is placed before the first element it does not compare strictly
after (ties keep original relative order, as ES2019 requires). -/
def jsStableSort {α : Type} (cmp : α → α → Int) (l : List α) : List α :=
  List.insertionSort (fun x y => cmp x y ≤ 0) l

/-- The single-column software comparator of `sortValues`
(dataframe.ts lines 384-394). -/
def cmp1 (ascending : Bool) (valA valB : Val) : Int :=
  if valA = valB then 0
  else if isMissingB valA then (if ascending then 1 else -1)
  else if isMissingB valB then (if ascending then -1 else 1)
  else
    let comparison : Int := if jsLt valA valB then -1 else if jsGt valA valB then 1 else 0
    if ascending then comparison else -comparison

/-- The two-column software comparator of `sortValues`
(dataframe.ts lines 442-464): decide on the first column when its values
differ strictly (`!==`) and the decision is nonzero, else fall through to the
second column, which is compared exactly like the single-column case. -/
def cmp2 (ascending : Bool) (valA1 valB1 valA2 valB2 : Val) : Int :=
  if valA1 ≠ valB1 then
    if isMissingB valA1 then (if ascending then 1 else -1)
    else if isMissingB valB1 then (if ascending then -1 else 1)
    else
      let comparison1 : Int := if jsLt valA1 valB1 then -1 else if jsGt valA1 valB1 then 1 else 0
      let result1 := if ascending then comparison1 else -comparison1
      if result1 ≠ 0 then result1 else cmp1 ascending valA2 valB2
  else cmp1 ascending valA2 valB2

/-- The N-column software comparator of `sortValues`
(dataframe.ts lines 488-502): walk the key tuples left to right; `===`-equal
entries and entries whose natural comparison is 0 both fall through to the
next column. -/
def cmpKeys (ascending : Bool) : List Val → List Val → Int
  | [], _ => 0
  | valA :: as_, bs =>
    let valB := bs.headD .undefV
    if valA = valB then cmpKeys ascending as_ bs.tail
    else if isMissingB valA then (if ascending then 1 else -1)
    else if isMissingB valB then (if ascending then -1 else 1)
    else
      let comparison : Int := if jsLt valA valB then -1 else if jsGt valA valB then 1 else 0
      let result := if ascending then comparison else -comparison
      if result ≠ 0 then result else cmpKeys ascending as_ bs.tail

/-- `_reorderByIndices` (dataframe.ts lines 511-530): gather rows at the
given positions; the result goes through the DataFrame constructor again. -/
def reorderByIndices (df : DataFrame) (indices : List Nat) :
    Except String DataFrame :=
  mkDataFrame
    (df.data.map (fun p => (p.1, indices.map (fun i => p.2.values.getD i .undefV))))
    (some (indices.map (fun i => df.index.getD i (.int 0))))
    (some df.columns)

/-- JS `Int32Array` element conversion `ToInt32`: truncate toward zero, then
wrap into `[-2^31, 2^31)` (explicit arithmetic modulo `2^32`).  Truncation of
`num/den` toward zero is `Int.tdiv`. -/
def ratTrunc (q : ℚ) : Int := q.num.tdiv q.den

def toInt32 (q : ℚ) : Int := ((ratTrunc q + 2 ^ 31) % 2 ^ 32) - 2 ^ 31

/-- Sentinel used by the int32 accelerated path for `null`
(dataframe.ts line 373). -/
def i32NullSentinel : Int := -2147483648

/-- Eligibility test of the accelerated paths: every value is a JS number or
`null` (`typeof v === "number" || v === null`; note `undefined` fails it). -/
def allNumOrNull (vs : List Val) : Bool :=
  vs.all (fun v => (match v with | .num _ => true | .null => true | _ => false))

def encodeI32 : Val → Int
  | .num q => toInt32 q
  | _ => i32NullSentinel

/-- `Float64Array` entry: `none` models the NaN that `null` is mapped to. -/
def encodeF64 : Val → Option ℚ
  | .num q => some q
  | _ => none

/-- Numeric comparator over int buffers used by the modelled backend. -/
def intCmp (ascending : Bool) (x y : Int) : Int :=
  if x < y then (if ascending then -1 else 1)
  else if y < x then (if ascending then 1 else -1)
  else 0

/-- Numeric comparator over f64 buffers used by the modelled backend;
NaN (`none`) is ordered after every number (a fixed, documented choice — the
backend's NaN policy is unspecified, and no claim is decided by it). -/
def f64Cmp (ascending : Bool) (x y : Option ℚ) : Int :=
  match x, y with
  | some a, some b =>
    if a < b then (if ascending then -1 else 1)
    else if b < a then (if ascending then 1 else -1)
    else 0
  | some _, none => if ascending then -1 else 1
  | none, some _ => if ascending then 1 else -1
  | none, none => 0

/-- Modelled from the spec: the accelerated numeric backend's
`sortIndicesI32` (wasm_engine.ts is not under src/).  Spec §6: `register`
takes the numeric buffer previously built by the caller and
`sortPermutation(handle, ascending, stable) -> position sequence`; the
backend is a black-box stable numeric sort that, given identical input
values and ordering flags, returns an identical permutation.  It sees only
the raw buffer (in particular it cannot distinguish a genuine
`-2147483648` from the null sentinel the caller wrote). -/
def wasmSortIndicesI32 (buf : List Int) (ascending : Bool) : List Nat :=
  jsStableSort (fun a b => intCmp ascending (buf.getD a 0) (buf.getD b 0))
    (List.range buf.length)

/-- Modelled from the spec: the accelerated backend's `sortIndicesF64`
(wasm_engine.ts is not under src/), a stable numeric argsort of the f64
buffer. -/
def wasmSortIndicesF64 (buf : List (Option ℚ)) (ascending : Bool) : List Nat :=
  jsStableSort (fun a b => f64Cmp ascending (buf.getD a none) (buf.getD b none))
    (List.range buf.length)

/-- Modelled from the spec: the accelerated backend's two-column int32
argsort (lexicographic, stable). -/
def wasmSortTwoI32 (buf1 buf2 : List Int) (ascending : Bool) : List Nat :=
  jsStableSort (fun a b =>
    let c := intCmp ascending (buf1.getD a 0) (buf1.getD b 0)
    if c ≠ 0 then c else intCmp ascending (buf2.getD a 0) (buf2.getD b 0))
    (List.range buf1.length)

/-- Modelled from the spec: the accelerated backend's two-column f64
argsort (lexicographic, stable). -/
def wasmSortTwoF64 (buf1 buf2 : List (Option ℚ)) (ascending : Bool) : List Nat :=
  jsStableSort (fun a b =>
    let c := f64Cmp ascending (buf1.getD a none) (buf1.getD b none)
    if c ≠ 0 then c else f64Cmp ascending (buf2.getD a none) (buf2.getD b none))
    (List.range buf1.length)

/-- `DataFrame.sortValues` (dataframe.ts lines 348-506), parameterised by the
`isWasmEngineEnabled()` toggle.  One and two fully-numeric int32/float64 key
columns take the accelerated path when the toggle is on; everything else uses
the software comparators.  A two-column request where either series is
absent, and the general path, raise `Column not found`. -/
def sortValues (df : DataFrame) (sortColumns : List String) (ascending : Bool)
    (wasmEnabled : Bool) : Except String DataFrame :=
  match sortColumns with
  | [colName] =>
    match alookup colName df.data with
    | none => .error ("Column " ++ colName ++ " not found")
    | some s =>
      if s.dtype = .float64 ∧ allNumOrNull s.values ∧ wasmEnabled then
        reorderByIndices df (wasmSortIndicesF64 (s.values.map encodeF64) ascending)
      else if s.dtype = .int32 ∧ allNumOrNull s.values ∧ wasmEnabled then
        reorderByIndices df (wasmSortIndicesI32 (s.values.map encodeI32) ascending)
      else
        reorderByIndices df (jsStableSort
          (fun a b => cmp1 ascending (s.values.getD a .undefV) (s.values.getD b .undefV))
          (List.range df.rowCount))
  | [col1, col2] =>
    match alookup col1 df.data, alookup col2 df.data with
    | some s1, some s2 =>
      if s1.dtype = .float64 ∧ s2.dtype = .float64 ∧
          allNumOrNull s1.values ∧ allNumOrNull s2.values ∧ wasmEnabled then
        reorderByIndices df
          (wasmSortTwoF64 (s1.values.map encodeF64) (s2.values.map encodeF64) ascending)
      else if s1.dtype = .int32 ∧ s2.dtype = .int32 ∧
          allNumOrNull s1.values ∧ allNumOrNull s2.values ∧ wasmEnabled then
        reorderByIndices df
          (wasmSortTwoI32 (s1.values.map encodeI32) (s2.values.map encodeI32) ascending)
      else
        reorderByIndices df (jsStableSort
          (fun a b => cmp2 ascending
            (s1.values.getD a .undefV) (s1.values.getD b .undefV)
            (s2.values.getD a .undefV) (s2.values.getD b .undefV))
          (List.range df.rowCount))
    | none, _ => .error ("Column " ++ col1 ++ " not found")
    | _, none => .error ("Column " ++ col2 ++ " not found")
  | _ =>
    match sortColumns.find? (fun c => (alookup c df.data).isNone) with
    | some c => .error ("Column " ++ c ++ " not found")
    | none =>
      let keyAt : Nat → List Val := fun i =>
        sortColumns.map (fun c =>
          (((alookup c df.data).map Series.values).getD []).getD i .undefV)
      reorderByIndices df (jsStableSort
        (fun a b => cmpKeys ascending (keyAt a) (keyAt b))
        (List.range df.rowCount))

/-! ## Query engine -/

/-- Query AST (types.ts `QueryNode`): leaf condition, `and`, `or`. -/
inductive QOp where
  | gt
  | lt
  | ge
  | le
  | eq
  | ne
deriving DecidableEq

inductive QueryNode where
  | cond (column : String) (op : QOp) (value : Val)
  | and (left right : QueryNode)
  | or (left right : QueryNode)
deriving DecidableEq

/-- JS `String.prototype.trim` on a char list. -/
def trimC (s : List Char) : List Char :=
  ((s.dropWhile Char.isWhitespace).reverse.dropWhile Char.isWhitespace).reverse

def andOp : List Char := " and ".toList

def orOp : List Char := " or ".toList

/-- The scan of `_splitByOperator` (dataframe.ts lines 1019-1028): walk the
expression tracking parenthesis depth; report the first position where the
operator matches at depth 0.  (`(`/`)` only adjust depth — the operators
start with a space, so the `else if` chain never hides a match.) -/
def findIdx0 (op : List Char) : List Char → Int → Option Nat
  | [], _ => none
  | c :: rest, depth =>
    if c = '(' then (findIdx0 op rest (depth + 1)).map (· + 1)
    else if c = ')' then (findIdx0 op rest (depth - 1)).map (· + 1)
    else if depth = 0 ∧ op.isPrefixOf (c :: rest) then some 0
    else (findIdx0 op rest depth).map (· + 1)

/-- `_splitByOperator` (dataframe.ts lines 1015-1031): `some` with the two
trimmed parts when a depth-0 occurrence exists, `none` when the expression
comes back whole (`[expression]`). -/
def splitByOperator (expression : List Char) (op : List Char) :
    Option (List Char × List Char) :=
  (findIdx0 op expression 0).map (fun i =>
    (trimC (expression.take i), trimC (expression.drop (i + op.length))))

/-- First index of a substring (JS `String.prototype.indexOf`). -/
def indexOfSub (op : List Char) : List Char → Option Nat
  | [] => none
  | c :: rest =>
    if op.isPrefixOf (c :: rest) then some 0
    else (indexOfSub op rest).map (· + 1)

/-- The operator table of `_parseSimpleCondition`, in match order
(longest-prefix operators first). -/
def opTable : List (List Char × QOp) :=
  [(['>', '='], .ge), (['<', '='], .le), (['=', '='], .eq),
   (['!', '='], .ne), ([Char.ofNat 62], .gt), ([Char.ofNat 60], .lt)]

/-- First operator of the table occurring in the condition, with its index
(the `for (const op of operators)` loop). -/
def findFirstOp : List (List Char × QOp) → List Char → Option (List Char × QOp × Nat)
  | [], _ => none
  | (op, tag) :: rest, cond =>
    match indexOfSub op cond with
    | some i => some (op, tag, i)
    | none => findFirstOp rest cond

/-- `_parseValue` (dataframe.ts lines 1074-1101): quoted text → string,
`null`/`undefined`/`true`/`false` keywords, then numeric, else the literal
text. -/
def parseValue (valueStr : List Char) : Val :=
  if (valueStr.head? = some '"' ∧ valueStr.getLast? = some '"') ∨
      (valueStr.head? = some '\'' ∧ valueStr.getLast? = some '\'') then
    .str (String.mk ((valueStr.drop 1).dropLast))
  else if valueStr = "null".toList then .null
  else if valueStr = "undefined".toList then .undefV
  else if valueStr = "true".toList then .bool true
  else if valueStr = "false".toList then .bool false
  else
    match numParse? valueStr with
    | some q => .num q
    | none => .str (String.mk valueStr)

/-- `_parseSimpleCondition` (dataframe.ts lines 1037-1068): strip one outer
parenthesis pair, find the first matching operator, validate the value text
and the column name. -/
def parseSimpleCondition (cols : List String) (condition : List Char) :
    Except String QueryNode :=
  let c := if condition.head? = some '(' ∧ condition.getLast? = some ')' then
    trimC ((condition.drop 1).dropLast) else condition
  match findFirstOp opTable c with
  | some (op, tag, i) =>
    let column := trimC (c.take i)
    let value := trimC (c.drop (i + op.length))
    if value = [] then
      .error ("Invalid condition: missing value after operator " ++ String.mk op)
    else if ¬ cols.contains (String.mk column) then
      .error ("Column " ++ String.mk column ++ " not found in DataFrame")
    else
      .ok (.cond (String.mk column) tag (parseValue value))
  | none => .error ("Invalid condition: " ++ String.mk condition)

theorem dropWhile_len_le {α : Type} (p : α → Bool) (l : List α) :
    (l.dropWhile p).length ≤ l.length := by
  induction l with
  | nil => simp
  | cons a rest ih =>
    rw [List.dropWhile_cons]
    split
    · exact Nat.le_succ_of_le ih
    · simp

theorem trimC_length_le (s : List Char) : (trimC s).length ≤ s.length := by
  unfold trimC
  calc ((s.dropWhile Char.isWhitespace).reverse.dropWhile Char.isWhitespace).reverse.length
      = ((s.dropWhile Char.isWhitespace).reverse.dropWhile Char.isWhitespace).length := by
        simp
    _ ≤ (s.dropWhile Char.isWhitespace).reverse.length := dropWhile_len_le _ _
    _ = (s.dropWhile Char.isWhitespace).length := by simp
    _ ≤ s.length := dropWhile_len_le _ _

theorem findIdx0_bound {op s : List Char} {d : Int} {i : Nat}
    (h : findIdx0 op s d = some i) : i + op.length ≤ s.length := by
  induction s generalizing d i with
  | nil => simp [findIdx0] at h
  | cons c rest ih =>
    unfold findIdx0 at h
    split at h
    · match hrec : findIdx0 op rest (d + 1) with
      | none => rw [hrec] at h; simp at h
      | some j =>
        rw [hrec] at h
        simp at h
        have := ih hrec
        simp [← h]
        omega
    · split at h
      · match hrec : findIdx0 op rest (d - 1) with
        | none => rw [hrec] at h; simp at h
        | some j =>
          rw [hrec] at h
          simp at h
          have := ih hrec
          simp [← h]
          omega
      · split at h
        · rename_i hpre
          have hlen := List.IsPrefix.length_le (List.isPrefixOf_iff_prefix.mp hpre.2)
          simp at h
          subst h
          simpa using hlen
        · match hrec : findIdx0 op rest d with
          | none => rw [hrec] at h; simp at h
          | some j =>
            rw [hrec] at h
            simp at h
            have := ih hrec
            simp [← h]
            omega

theorem splitByOperator_fst_lt {e l r : List Char} {op : List Char}
    (hop : 0 < op.length) (h : splitByOperator e op = some (l, r)) :
    l.length < e.length := by
  unfold splitByOperator at h
  match hf : findIdx0 op e 0 with
  | none => rw [hf] at h; simp at h
  | some i =>
    rw [hf] at h
    simp at h
    have hb := findIdx0_bound hf
    have h1 : l = trimC (e.take i) := by rw [← h.1]
    have h2 := trimC_length_le (e.take i)
    rw [h1]
    have : (e.take i).length ≤ i := by simp
    omega

theorem splitByOperator_snd_lt {e l r : List Char} {op : List Char}
    (hop : 0 < op.length) (h : splitByOperator e op = some (l, r)) :
    r.length < e.length := by
  unfold splitByOperator at h
  match hf : findIdx0 op e 0 with
  | none => rw [hf] at h; simp at h
  | some i =>
    rw [hf] at h
    simp at h
    have hb := findIdx0_bound hf
    have h2 : r = trimC (e.drop (i + op.length)) := by rw [← h.2]
    have h3 := trimC_length_le (e.drop (i + op.length))
    rw [h2]
    have : (e.drop (i + op.length)).length = e.length - (i + op.length) := by simp
    omega

/-- `_parseQueryExpression` (dataframe.ts lines 983-1009): split at the first
depth-0 `" and "` if one exists (so AND is always the outermost split point),
else at the first depth-0 `" or "`, else parse a simple condition.  The
source guards each split with a bare `includes` check; that check is
redundant (the splitter finds an occurrence only if one exists), so it is
omitted here. -/
def parseQueryExpr (cols : List String) (e : List Char) :
    Except String QueryNode :=
  let t := trimC e
  match hand : splitByOperator t andOp with
  | some (l, r) =>
    match parseQueryExpr cols l with
    | .error m => .error m
    | .ok ln =>
      match parseQueryExpr cols r with
      | .error m => .error m
      | .ok rn => .ok (.and ln rn)
  | none =>
    match hor : splitByOperator t orOp with
    | some (l, r) =>
      match parseQueryExpr cols l with
      | .error m => .error m
      | .ok ln =>
        match parseQueryExpr cols r with
        | .error m => .error m
        | .ok rn => .ok (.or ln rn)
    | none => parseSimpleCondition cols t
termination_by e.length
decreasing_by
  · exact Nat.lt_of_lt_of_le (splitByOperator_fst_lt (by decide) hand) (trimC_length_le e)
  · exact Nat.lt_of_lt_of_le (splitByOperator_snd_lt (by decide) hand) (trimC_length_le e)
  · exact Nat.lt_of_lt_of_le (splitByOperator_fst_lt (by decide) hor) (trimC_length_le e)
  · exact Nat.lt_of_lt_of_le (splitByOperator_snd_lt (by decide) hor) (trimC_length_le e)

/-- The elementwise mask of one operator (`_evaluateCondition`,
dataframe.ts lines 1142-1167): relational operators require both operands
non-missing (`v != null && targetValue != null`); `==`/`!=` are strict
`===`/`!==`. -/
def condMask (values : List Val) (op : QOp) (targetValue : Val) : List Bool :=
  match op with
  | .gt => values.map (fun v => !isMissingB v && !isMissingB targetValue && jsGt v targetValue)
  | .lt => values.map (fun v => !isMissingB v && !isMissingB targetValue && jsLt v targetValue)
  | .ge => values.map (fun v => !isMissingB v && !isMissingB targetValue && jsGe v targetValue)
  | .le => values.map (fun v => !isMissingB v && !isMissingB targetValue && jsLe v targetValue)
  | .eq => values.map (fun v => jsStrictEq v targetValue)
  | .ne => values.map (fun v => !jsStrictEq v targetValue)

/-- `_evaluateCondition`: resolve the column, then build the mask. -/
def evaluateCondition (df : DataFrame) (column : String) (op : QOp)
    (targetValue : Val) : Except String (List Bool) :=
  match alookup column df.data with
  | none => .error ("Column " ++ column ++ " not found")
  | some series => .ok (condMask series.values op targetValue)

/-- `_evaluateNode` (dataframe.ts lines 1119-1136): elementwise and/or. -/
def evaluateNode (df : DataFrame) : QueryNode → Except String (List Bool)
  | .cond c op v => evaluateCondition df c op v
  | .and l r =>
    match evaluateNode df l with
    | .error m => .error m
    | .ok lm =>
      match evaluateNode df r with
      | .error m => .error m
      | .ok rm => .ok ((lm.zip rm).map (fun p => p.1 && p.2))
  | .or l r =>
    match evaluateNode df l with
    | .error m => .error m
    | .ok lm =>
      match evaluateNode df r with
      | .error m => .error m
      | .ok rm => .ok ((lm.zip rm).map (fun p => p.1 || p.2))

/-- `DataFrame.query` (dataframe.ts lines 240-250). -/
def query (df : DataFrame) (expression : List Char) : Except String DataFrame :=
  match parseQueryExpr df.columns expression with
  | .error m => .error ("Query evaluation failed: " ++ m)
  | .ok node =>
    match evaluateNode df node with
    | .error m => .error ("Query evaluation failed: " ++ m)
    | .ok mask =>
      match df.filter mask with
      | .error m => .error ("Query evaluation failed: " ++ m)
      | .ok out => .ok out

/-! ## BoxFrame: fromObjects, composite keys, merge -/

/-- A row object (`RowData`): keys in insertion order, unique as in any JS
object literal. -/
abbrev RowData := List (String × Val)

/-- JS property access `obj[col]`: `undefined` when the key is absent. -/
def objGet (obj : RowData) (col : String) : Val :=
  (alookup col obj).getD .undefV

/-- `BoxFrame.fromObjects` (boxframe.ts lines 57-70): the column set is the
key list of the first object only; each column is every object's value at
that key (absent keys contribute `undefined`). -/
def fromObjects (objects : List RowData) (idx? : Option (List Label)) :
    Except String DataFrame :=
  match objects with
  | [] => mkDataFrame [] none none
  | first :: _ =>
    let columns := first.map Prod.fst
    mkDataFrame (columns.map (fun col => (col, objects.map (fun o => objGet o col))))
      idx? none

/-- `BoxFrame._createKey` (boxframe.ts lines 512-522): stringify each key
value (`__NULL__` for null/undefined, `getTime()` for Dates, `String(v)`
otherwise) and join with `|`. -/
def createKey (keyValues : List Val) : String :=
  String.intercalate "|" (keyValues.map (fun v =>
    match v with
    | .null => "__NULL__"
    | .undefV => "__NULL__"
    | .date t => toString t
    | _ => jsValToString v))

/-- `series ? series.values[i] : null`: the value of column `key` at row
position `i`. -/
def getVal (df : DataFrame) (key : String) (i : Nat) : Val :=
  match alookup key df.data with
  | some s => s.values.getD i .undefV
  | none => .null

/-- The composite key of row `i` over the key columns `ks`. -/
def rowKey (df : DataFrame) (ks : List String) (i : Nat) : String :=
  createKey (ks.map (fun k => getVal df k i))

/-- All row keys of a frame, in row order. -/
def rowKeys (df : DataFrame) (ks : List String) : List String :=
  (List.range df.rowCount).map (rowKey df ks)

/-- One step of building a key → row-positions multimap
(`Map.get(key)!.push(i)` with insertion-order keys). -/
def addMulti (m : List (String × List Nat)) (k : String) (i : Nat) :
    List (String × List Nat) :=
  match m with
  | [] => [(k, [i])]
  | p :: rest => if p.1 = k then (p.1, p.2 ++ [i]) :: rest else p :: addMulti rest k i

/-- Build the multimap from the row keys, starting at position `pos`
(boxframe.ts lines 318-342). -/
def buildMultiFrom (ks : List String) (pos : Nat)
    (m : List (String × List Nat)) : List (String × List Nat) :=
  match ks with
  | [] => m
  | k :: rest => buildMultiFrom rest (pos + 1) (addMulti m k pos)

def buildMulti (ks : List String) : List (String × List Nat) :=
  buildMultiFrom ks 0 []

/-- Positions stored under key `k` (absent key: the `|| []` default). -/
def multiGet (m : List (String × List Nat)) (k : String) : List Nat :=
  (alookup k m).getD []

/-- Insertion-ordered set-union (`Set.add` over existing keys): extend `acc`
with the members of the second list not already present. -/
def dedupAppend (acc : List String) : List String → List String
  | [] => acc
  | k :: rest => dedupAppend (if acc.contains k then acc else acc ++ [k]) rest

/-- First-occurrence deduplication (JS `Set` iteration order). -/
def firstDedup (ks : List String) : List String := dedupAppend [] ks

/-- Join kinds. -/
inductive How where
  | inner
  | left
  | right
  | outer
deriving DecidableEq

/-- The key set iterated by merge (boxframe.ts lines 344-350): left-map keys
for inner/left/outer, then right-map keys for inner/right/outer, deduplicated
in insertion order. -/
def mergeAllKeys (how : How) (lKeys rKeys : List String) : List String :=
  let base := if how = .inner ∨ how = .left ∨ how = .outer then
    dedupAppend [] lKeys else []
  if how = .inner ∨ how = .right ∨ how = .outer then dedupAppend base rKeys
  else base

/-- The (left position, right position) pairs merge emits for one key
(boxframe.ts lines 380-499): inner skips keys missing on either side;
otherwise a side with no match contributes one row per opposite row with the
missing side `none`, and two non-empty sides contribute their cartesian
product, left-major. -/
def emitForKey (how : How) (leftRows rightRows : List Nat) :
    List (Option Nat × Option Nat) :=
  if how = .inner ∧ (leftRows = [] ∨ rightRows = []) then []
  else if leftRows = [] ∧ rightRows ≠ [] then
    rightRows.map (fun r => (none, some r))
  else if rightRows = [] ∧ leftRows ≠ [] then
    leftRows.map (fun l => (some l, none))
  else
    leftRows.flatMap (fun l => rightRows.map (fun r => (some l, some r)))

/-- Where a result column draws its cell values from. -/
inductive MergeRole where
  | key (i : Nat)
  | fromLeft (c : String)
  | fromRight (c : String)
deriving DecidableEq

/-- The result columns of merge in order, each with its role
(boxframe.ts lines 352-378): the join keys under the left names, the left
non-key columns, then the right non-key columns — a right column is given the
second suffix exactly when its name equals a left non-key column's name. -/
def mergeRoles (l r : DataFrame) (leftKeys rightKeys : List String)
    (sfx : String) : List (String × MergeRole) :=
  leftKeys.enum.map (fun p => (p.2, MergeRole.key p.1)) ++
    (l.columns.filter (fun c => ¬ leftKeys.contains c)).map
      (fun c => (c, MergeRole.fromLeft c)) ++
    (r.columns.filter (fun c => ¬ rightKeys.contains c)).map
      (fun c =>
        (if l.columns.contains c ∧ ¬ leftKeys.contains c then c ++ sfx else c,
          MergeRole.fromRight c))

/-- The cell a role contributes for one emitted row pair. -/
def mergeCell (l r : DataFrame) (leftKeys rightKeys : List String)
    (pair : Option Nat × Option Nat) : MergeRole → Val
  | .key i =>
    match pair.1 with
    | some li => getVal l (leftKeys.getD i "") li
    | none =>
      match pair.2 with
      | some ri => getVal r (rightKeys.getD i "") ri
      | none => .null
  | .fromLeft c =>
    match pair.1 with
    | some li => getVal l c li
    | none => .null
  | .fromRight c =>
    match pair.2 with
    | some ri => getVal r c ri
    | none => .null

/-- The label of one emitted row (boxframe.ts lines 432, 461, 493-496):
unmatched rows keep their side's label, matched pairs get the composite
string label. -/
def mergeLabel (l r : DataFrame) : Option Nat × Option Nat → Label
  | (some li, some ri) =>
    .str (labelToString (l.index.getD li (.int 0)) ++ "_" ++
      labelToString (r.index.getD ri (.int 0)))
  | (some li, none) => l.index.getD li (.int 0)
  | (none, some ri) => r.index.getD ri (.int 0)
  | (none, none) => .int 0

/-- The result record: every result column pre-initialised to `[]`
(in first-assignment order, later re-assignments overwriting), then one push
per column per emitted row, in the source's push order. -/
def mergeRecord (l r : DataFrame) (leftKeys rightKeys : List String)
    (roles : List (String × MergeRole))
    (pairs : List (Option Nat × Option Nat)) : List (String × List Val) :=
  let init := roles.foldl (fun acc p => upsert acc p.1 []) []
  pairs.foldl (fun acc pair =>
    roles.foldl (fun acc p =>
      pushEntry acc p.1 (mergeCell l r leftKeys rightKeys pair p.2))
    acc) init

/-- Merge options (`MergeOptions` in types.ts): `how` defaults to inner,
`suffixes` to `("_x", "_y")`. -/
structure MergeOpts where
  how : How
  onKeys : Option (List String)
  leftOn : Option (List String)
  rightOn : Option (List String)
  suffixes : String × String
deriving DecidableEq

def defaultMergeOpts : MergeOpts :=
  ⟨.inner, none, none, none, ("_x", "_y")⟩

/-- Key resolution of `BoxFrame.merge` (boxframe.ts lines 280-316):
`on` keys must exist on both sides; otherwise `leftOn`/`rightOn` must both be
given, have equal length, and exist on their sides. -/
def resolveKeys (l r : DataFrame) (o : MergeOpts) :
    Except String (List String × List String) :=
  match o.onKeys with
  | some keys =>
    match keys.find? (fun k => ¬ l.columns.contains k) with
    | some k => .error ("Column " ++ k ++ " not found in left DataFrame")
    | none =>
      match keys.find? (fun k => ¬ r.columns.contains k) with
      | some k => .error ("Column " ++ k ++ " not found in right DataFrame")
      | none => .ok (keys, keys)
  | none =>
    match o.leftOn, o.rightOn with
    | some lks, some rks =>
      if lks.length ≠ rks.length then
        .error "leftOn and rightOn must have the same number of keys"
      else
        match lks.find? (fun k => ¬ l.columns.contains k) with
        | some k => .error ("Column " ++ k ++ " not found in left DataFrame")
        | none =>
          match rks.find? (fun k => ¬ r.columns.contains k) with
          | some k => .error ("Column " ++ k ++ " not found in right DataFrame")
          | none => .ok (lks, rks)
    | _, _ => .error "Either on or both leftOn and rightOn must be specified"

/-- `BoxFrame.merge` (boxframe.ts lines 271-506). -/
def merge (l r : DataFrame) (o : MergeOpts) : Except String DataFrame :=
  match resolveKeys l r o with
  | .error e => .error e
  | .ok (leftKeys, rightKeys) =>
    let lm := buildMulti (rowKeys l leftKeys)
    let rm := buildMulti (rowKeys r rightKeys)
    let allKeys := mergeAllKeys o.how (lm.map Prod.fst) (rm.map Prod.fst)
    let pairs := allKeys.flatMap (fun k =>
      emitForKey o.how (multiGet lm k) (multiGet rm k))
    let roles := mergeRoles l r leftKeys rightKeys o.suffixes.2
    mkDataFrame (mergeRecord l r leftKeys rightKeys roles pairs)
      (some (pairs.map (mergeLabel l r)))
      (some (roles.map Prod.fst))

/-! ## Concrete frames used by counterexamples and witnesses -/

/-- Unwrap a construction known to succeed (concrete test data only). -/
def forceFrame (e : Except String DataFrame) : DataFrame :=
  match e with
  | .ok f => f
  | .error _ => ⟨[], [], []⟩

/-- A one-column frame `a = [1, null]`. -/
def exFrame1 : DataFrame := forceFrame (mkDataFrame [("a", [.num 1, .null])] none none)

/-- A one-column int32 frame `a = [null, 0]`. -/
def exFrame2 : DataFrame := forceFrame (mkDataFrame [("a", [.null, .num 0])] none none)

/-- A one-column frame whose single value is `undefined`. -/
def exFrame4 : DataFrame := forceFrame (mkDataFrame [("a", [.undefV])] none none)

/-- Left side of the spec §8 duplicate-key join example: `id = [1, 1, 2]`. -/
def exLeft5 : DataFrame := forceFrame (mkDataFrame [("id", [.num 1, .num 1, .num 2])] none none)

/-- Right side of the spec §8 duplicate-key join example: `id = [1, 1, 3]`. -/
def exRight5 : DataFrame := forceFrame (mkDataFrame [("id", [.num 1, .num 1, .num 3])] none none)

/-- Left side of the spec §8 join example: `id`, `name`. -/
def exLeft7 : DataFrame := forceFrame (mkDataFrame
  [("id", [.num 1, .num 2, .num 3]),
   ("name", [.str "Alice", .str "Bob", .str "Charlie"])] none none)

/-- Right side of the spec §8 join example: `id`, `age`. -/
def exRight7 : DataFrame := forceFrame (mkDataFrame
  [("id", [.num 2, .num 3, .num 4]),
   ("age", [.num 25, .num 30, .num 35])] none none)

/-- Merge options `on = ["id"]`, inner. -/
def exOnId : MergeOpts := { defaultMergeOpts with onKeys := some ["id"] }

/-- A two-column frame used by the rename counterexample. -/
def exFrame9 : DataFrame := forceFrame (mkDataFrame
  [("a", [.num 1]), ("b", [.num 2])] none none)

/-- Objects whose later keys differ from the first object's keys. -/
def exObjects10 : List RowData :=
  [[("x", .num 1), ("y", .num 2)], [("y", .num 3), ("z", .num 4)]]

/-- An int32 frame with no missing values, for the backend-equivalence
witness. -/
def exFrame2w : DataFrame := forceFrame (mkDataFrame
  [("a", [.num 3, .num 1, .num 3, .num (-2)])] none none)

/-! ## Generic helper lemmas -/

theorem alookup_map_entry {β γ : Type} (d : List (String × β))
    (g : String → β → γ) (k : String) :
    alookup k (d.map (fun p => (p.1, g p.1 p.2))) = (alookup k d).map (g k) := by
  induction d with
  | nil => rfl
  | cons p rest ih =>
    by_cases h : p.1 = k
    · subst h
      simp [alookup]
    · simp [alookup, h, ih]

theorem alookup_mem {β : Type} {d : List (String × β)} {k : String} {v : β}
    (h : alookup k d = some v) : (k, v) ∈ d := by
  induction d with
  | nil => simp [alookup] at h
  | cons p rest ih =>
    unfold alookup at h
    split at h
    · rename_i heq
      cases Option.some.inj h
      subst heq
      exact List.mem_cons_self _ _
    · exact List.mem_cons_of_mem _ (ih h)

theorem alookup_keyed {β : Type} (cols : List String) (g : String → β)
    (k : String) :
    alookup k (cols.map (fun c => (c, g c))) =
      if k ∈ cols then some (g k) else none := by
  induction cols with
  | nil => rfl
  | cons c rest ih =>
    by_cases h : c = k
    · subst h
      simp [alookup]
    · simp [alookup, h, ih, Ne.symm h]

theorem mkDataFrame_ok {d : List (String × List Val)}
    {idx? : Option (List Label)} {cols? : Option (List String)} {f : DataFrame}
    (h : mkDataFrame d idx? cols? = .ok f) :
    f.columns = cols?.getD (d.map Prod.fst) ∧
    f.index = idx?.getD (defaultIndex d) ∧
    f.data = d.map (fun p => (p.1, mkSeries p.1 p.2)) := by
  unfold mkDataFrame at h
  split at h
  · cases Except.ok.inj h
    exact ⟨rfl, rfl, rfl⟩
  · exact absurd h (by simp)

theorem mkDataFrame_ok_of {d : List (String × List Val)}
    {idx? : Option (List Label)} {cols? : Option (List String)}
    (h : d.all (fun p => p.2.length = (idx?.getD (defaultIndex d)).length)) :
    mkDataFrame d idx? cols? =
      .ok ⟨cols?.getD (d.map Prod.fst), idx?.getD (defaultIndex d),
        d.map (fun p => (p.1, mkSeries p.1 p.2))⟩ := by
  unfold mkDataFrame
  split
  · rfl
  · rename_i hc
    exact absurd h hc

theorem length_defRange (n : Nat) : (defRange n).length = n := by
  unfold defRange
  rw [List.length_map, List.length_range]

/-! ## C6, C9, C10 -/

/-- C6 (code_bug): the canonical composite key does collide distinct typed
values — the integer `1` and the string `"1"` stringify to the same key, and
a string containing the delimiter collides with the pair it imitates.
The claim (spec §4.4, "must not collide") states the intent; spec §9 flags
the stringified key as an open correctness question of the source. -/
theorem c6_key_collision :
    createKey [.num 1] = createKey [.str "1"] ∧
    createKey [.str "a|b"] = createKey [.str "a", .str "b"] :=
  ⟨by decide, by decide⟩

/-- C9 (counterexample): `rename` with two columns mapping to one name
returns a frame whose column list `["b", "b"]` has a duplicate, refuting the
claim that every table-returning operation yields duplicate-free column
names. -/
theorem c9_counterexample :
    (DataFrame.rename exFrame9 [("a", "b")]).toOption.map DataFrame.columns =
      some ["b", "b"] ∧
    ¬ (["b", "b"] : List String).Nodup :=
  ⟨by decide, by decide⟩

/-- C9 (amended): uniqueness of column names is not an invariant of the
operations; for `rename` the result's columns are the renamed originals, and
they are duplicate-free exactly when the effective renaming is injective on
the (distinct) original column names.  `merge` and horizontal `concat` give
no uniqueness guarantee either. -/
theorem c9_rename_nodup_iff (df : DataFrame) (m : List (String × String))
    (f : DataFrame) (hnd : df.columns.Nodup) (hok : df.rename m = .ok f) :
    f.columns = df.columns.map (effName m) ∧
    (f.columns.Nodup ↔
      ∀ a ∈ df.columns, ∀ b ∈ df.columns, effName m a = effName m b → a = b) := by
  unfold DataFrame.rename at hok
  split at hok
  · have hcols := (mkDataFrame_ok hok).1
    simp only [Option.getD_some] at hcols
    refine ⟨hcols, ?_⟩
    rw [hcols]
    exact List.nodup_map_iff_inj_on hnd
  · exact absurd hok (by simp)

/-- C9 (witness): a rename that is injective on the columns keeps them
duplicate-free. -/
theorem c9_witness :
    ∃ f, exFrame9.rename [("a", "c")] = .ok f ∧ f.columns.Nodup ∧
      f.columns = ["c", "b"] := by
  refine ⟨forceFrame (exFrame9.rename [("a", "c")]), by rfl, ?_, by rfl⟩
  have h := c9_rename_nodup_iff exFrame9 [("a", "c")]
    (forceFrame (exFrame9.rename [("a", "c")])) (by decide) (by rfl)
  exact h.2.mpr (by decide)

/-- C10 (confirmed): `fromObjects` takes its column set from the first
object's keys only; a key appearing only in later objects is dropped, and a
row lacking one of those keys contributes `undefined` (Missing) for that
column. -/
theorem c10_fromObjects (objects : List RowData) (first : RowData)
    (rest : List RowData) (h : objects = first :: rest) :
    ∃ f, fromObjects objects none = .ok f ∧
      f.columns = first.map Prod.fst ∧
      (∀ k, k ∉ first.map Prod.fst → k ∉ f.columns) ∧
      ∀ c, c ∈ first.map Prod.fst →
        ∃ s, alookup c f.data = some s ∧
          s.values = objects.map (fun o => objGet o c) ∧
          ∀ o ∈ objects, alookup c o = none → objGet o c = .undefV := by
  subst h
  set n := (first :: rest).length with hn
  set valsOf : String → List Val := fun col => (first :: rest).map (fun o => objGet o col)
    with hvalsOf
  set d := (first.map Prod.fst).map (fun col => (col, valsOf col)) with hd
  have hlen : ∀ p ∈ d, p.2.length = n := by
    intro p hp
    rw [hd] at hp
    obtain ⟨c, _, rfl⟩ := List.mem_map.mp hp
    simp [hvalsOf, hn]
  have hall : d.all (fun p => p.2.length =
      ((none : Option (List Label)).getD (defaultIndex d)).length) = true := by
    rw [List.all_eq_true]
    intro p hp
    rcases hd2 : d with _ | ⟨p0, d2⟩
    · rw [hd2] at hp
      simp at hp
    · have h0 := hlen p0 (by rw [hd2]; exact List.mem_cons_self _ _)
      have hp2 := hlen p hp
      simp only [hd2, defaultIndex, Option.getD_none, length_defRange]
      rw [decide_eq_true_eq, hp2, h0]
  have hok := @mkDataFrame_ok_of _ _ none hall
  have hcols : d.map Prod.fst = first.map Prod.fst := by
    rw [hd, List.map_map]
    exact List.map_id _
  have hdata : d.map (fun p => (p.1, mkSeries p.1 p.2)) =
      (first.map Prod.fst).map (fun col => (col, mkSeries col (valsOf col))) := by
    rw [hd, List.map_map]
    rfl
  refine ⟨_, hok, ?_, ?_, ?_⟩
  · simpa using hcols
  · intro k hk hk2
    simp only [Option.getD_none] at hk2
    rw [hcols] at hk2
    exact hk hk2
  · intro c hc
    refine ⟨mkSeries c (valsOf c), ?_, rfl, ?_⟩
    · show alookup c (d.map (fun p => (p.1, mkSeries p.1 p.2))) = _
      rw [hdata, alookup_keyed (first.map Prod.fst)
        (fun col => mkSeries col (valsOf col)) c, if_pos hc]
    · intro o _ hnone
      simp [objGet, hnone]

/-- C10 (witness): on two concrete objects, the first object's keys `x, y`
become the columns, the later-only key `z` is dropped, and the second row's
missing `x` becomes `undefined`. -/
theorem c10_witness :
    ∃ f, fromObjects exObjects10 none = .ok f ∧ f.columns = ["x", "y"] ∧
      "z" ∉ f.columns ∧
      ∃ s, alookup "x" f.data = some s ∧ s.values = [.num 1, .undefV] := by
  obtain ⟨f, hok, hcols, hdrop, hvals⟩ :=
    c10_fromObjects exObjects10 [("x", .num 1), ("y", .num 2)]
      [[("y", .num 3), ("z", .num 4)]] rfl
  refine ⟨f, hok, by rw [hcols]; rfl, ?_, ?_⟩
  · exact hdrop "z" (by decide)
  · obtain ⟨s, hs, hv, _⟩ := hvals "x" (by decide)
    exact ⟨s, hs, by rw [hv]; rfl⟩

/-! ## C8: filter -/

theorem selectMask_length {α : Type} {mask : List Bool} {l : List α}
    (h : mask.length = l.length) :
    (selectMask mask l).length = mask.count true := by
  induction mask generalizing l with
  | nil => rfl
  | cons b rest ih =>
    match l with
    | [] => simp at h
    | x :: xs =>
      have h2 : rest.length = xs.length := by simpa using h
      cases b with
      | true => simp [selectMask, List.zip_cons_cons, List.count_cons] at ih ⊢; rw [ih h2]
      | false => simp [selectMask, List.zip_cons_cons, List.count_cons] at ih ⊢; rw [ih h2]

/-- C8 (confirmed): `filter` fails with the length-mismatch error exactly
when the mask length differs from the row count; otherwise it returns a frame
whose labels are the labels of the selected rows in original order, whose row
count is the number of `true` mask entries, and whose every column holds the
selected values in original order. -/
theorem c8_filter (df : DataFrame) (mask : List Bool) (hwf : df.WFb = true) :
    (mask.length ≠ df.rowCount → ∃ msg, df.filter mask = .error msg) ∧
    (mask.length = df.rowCount →
      ∃ f, df.filter mask = .ok f ∧
        f.index = selectMask mask df.index ∧
        f.index.length = mask.count true ∧
        ∀ c s, alookup c df.data = some s →
          ∃ s2, alookup c f.data = some s2 ∧
            s2.values = selectMask mask s.values) := by
  constructor
  · intro hne
    refine ⟨"Mask length (" ++ toString mask.length ++
      ") must match DataFrame length (" ++ toString df.rowCount ++ ")", ?_⟩
    unfold DataFrame.filter
    rw [if_pos hne]
  · intro heq
    have hcount : (selectMask mask df.index).length = mask.count true :=
      selectMask_length heq
    have hall : (df.data.map (fun p => (p.1, selectMask mask p.2.values))).all
        (fun p => p.2.length =
          ((some (selectMask mask df.index)).getD
            (defaultIndex (df.data.map
              (fun p => (p.1, selectMask mask p.2.values))))).length) = true := by
      rw [List.all_eq_true]
      intro p hp
      obtain ⟨q, hq, rfl⟩ := List.mem_map.mp hp
      have hqlen : q.2.values.length = df.index.length := by
        have := (List.all_eq_true.mp hwf) q hq
        simpa using this
      simp only [Option.getD_some, decide_eq_true_eq]
      rw [hcount, selectMask_length (by rw [heq, DataFrame.rowCount, ← hqlen])]
    have hok := @mkDataFrame_ok_of _ _ none hall
    refine ⟨⟨(df.data.map (fun p => (p.1, selectMask mask p.2.values))).map Prod.fst,
      selectMask mask df.index,
      (df.data.map (fun p => (p.1, selectMask mask p.2.values))).map
        (fun p => (p.1, mkSeries p.1 p.2))⟩, ?_, rfl, hcount, ?_⟩
    · unfold DataFrame.filter
      rw [if_neg (by simp [heq]), hok]
      rfl
    · intro c s hs
      refine ⟨mkSeries c (selectMask mask s.values), ?_, rfl⟩
      show alookup c ((df.data.map (fun p => (p.1, selectMask mask p.2.values))).map
        (fun p => (p.1, mkSeries p.1 p.2))) = _
      rw [List.map_map]
      rw [show ((fun p : String × List Val => (p.1, mkSeries p.1 p.2)) ∘
        (fun p : String × Series => (p.1, selectMask mask p.2.values))) =
        (fun p : String × Series =>
          (p.1, (fun nm sr => mkSeries nm (selectMask mask sr.values)) p.1 p.2))
        from rfl]
      rw [alookup_map_entry df.data
        (fun nm sr => mkSeries nm (selectMask mask sr.values)) c, hs]
      rfl

/-- C8 (witness): filtering a concrete 3-row frame with `[true, false, true]`
keeps rows 0 and 2 with their labels, and a 1-entry mask is rejected. -/
theorem c8_witness :
    (∃ msg, exLeft7.filter [true] = .error msg) ∧
    ∃ f, exLeft7.filter [true, false, true] = .ok f ∧
      f.index = [.int 0, .int 2] ∧ f.index.length = 2 ∧
      ∃ s2, alookup "name" f.data = some s2 ∧
        s2.values = [.str "Alice", .str "Charlie"] := by
  constructor
  · exact (c8_filter exLeft7 [true] (by decide)).1 (by decide)
  · obtain ⟨f, hok, hidx, hlen, hcol⟩ :=
      (c8_filter exLeft7 [true, false, true] (by decide)).2 (by decide)
    obtain ⟨s2, hs2, hv⟩ := hcol "name" (mkSeries "name"
      [.str "Alice", .str "Bob", .str "Charlie"]) (by rfl)
    exact ⟨f, hok, by rw [hidx]; rfl, by rw [hlen]; rfl, s2, hs2, by rw [hv]; rfl⟩

/-! ## C4: leaf-condition evaluation -/

theorem evaluateCondition_ok {df : DataFrame} {c : String} {s : Series}
    (h : alookup c df.data = some s) (op : QOp) (lit : Val) :
    evaluateCondition df c op lit = .ok (condMask s.values op lit) := by
  unfold evaluateCondition
  rw [h]

theorem getD_map_lt {α β : Type} {l : List α} {i : Nat} (f : α → β)
    (d : β) (d2 : α) (hi : i < l.length) :
    (l.map f).getD i d = f (l.getD i d2) := by
  rw [List.getD_eq_getElem _ _ (by simpa using hi), List.getD_eq_getElem _ _ hi]
  simp

/-- C4 (counterexample): on a column holding `undefined` with literal `null`
— both Missing — the `==` mask is `false`, refuting the claim that
`Missing == Missing` evaluates to true (the code compares with strict `===`,
and `null === undefined` is false). -/
theorem c4_counterexample :
    evaluateCondition exFrame4 "a" .eq .null = .ok [false] ∧
    isMissingB .undefV = true ∧ isMissingB .null = true :=
  ⟨by rfl, rfl, rfl⟩

/-- C4 (amended): the relational masks `>,<,>=,<=` are false at every row
where the row value or the literal is Missing; `==` is strict value identity
(true exactly when the value and the literal are the same value, so
`null == null` and `undefined == undefined` hold but `null == undefined`
does not); `!=` is the pointwise negation of `==`. -/
theorem c4_condition_semantics (df : DataFrame) (c : String) (s : Series)
    (lit : Val) (i : Nat) (hlook : alookup c df.data = some s)
    (hi : i < s.values.length) :
    (∀ op, evaluateCondition df c op lit = .ok (condMask s.values op lit)) ∧
    ((isMissingB (s.values.getD i .undefV) = true ∨ isMissingB lit = true) →
      (condMask s.values .gt lit).getD i true = false ∧
      (condMask s.values .lt lit).getD i true = false ∧
      (condMask s.values .ge lit).getD i true = false ∧
      (condMask s.values .le lit).getD i true = false) ∧
    ((condMask s.values .eq lit).getD i false = true ↔
      s.values.getD i .undefV = lit) ∧
    (condMask s.values .ne lit).getD i false =
      !((condMask s.values .eq lit).getD i false) := by
  refine ⟨fun op => evaluateCondition_ok hlook op lit, ?_, ?_, ?_⟩
  · intro hmiss
    refine ⟨?_, ?_, ?_, ?_⟩ <;>
      · show ((s.values.map _).getD i true) = false
        rw [getD_map_lt _ true .undefV hi]
        rcases hmiss with h | h
        · simp only [List.getD, List.get?_eq_getElem?] at h
          simp [h]
        · simp [h]
  · show ((s.values.map _).getD i false) = true ↔ _
    rw [getD_map_lt _ false .undefV hi]
    simp [jsStrictEq]
  · show ((s.values.map _).getD i false) = !((s.values.map _).getD i false)
    rw [getD_map_lt _ false .undefV hi, getD_map_lt _ false .undefV hi]

/-- C4 (witness): evaluating concrete conditions against the frame
`a = [1, null]` with literal `null`. -/
theorem c4_witness :
    (∀ op, evaluateCondition exFrame1 "a" op .null =
      .ok (condMask (mkSeries "a" [.num 1, .null]).values op .null)) ∧
    (condMask (mkSeries "a" [.num 1, .null]).values .gt .null).getD 1 true =
      false := by
  have h := c4_condition_semantics exFrame1 "a" (mkSeries "a" [.num 1, .null])
    .null 1 (by rfl) (by decide)
  exact ⟨h.1, (h.2.1 (Or.inl (by decide))).1⟩

/-! ## C3: AND/OR precedence of the query parser -/

/-- C3 (confirmed): whenever a depth-0 `" and "` exists, the parser splits
there first — the And node's children are the parses of the text before and
after the first depth-0 occurrence — and it splits at a depth-0 `" or "` only
when no depth-0 `" and "` exists. -/
theorem c3_and_precedence (cols : List String) (e : List Char) :
    (∀ l r, splitByOperator (trimC e) andOp = some (l, r) →
      parseQueryExpr cols e =
        (match parseQueryExpr cols l with
          | .error m => .error m
          | .ok ln =>
            match parseQueryExpr cols r with
            | .error m => .error m
            | .ok rn => .ok (.and ln rn))) ∧
    (splitByOperator (trimC e) andOp = none →
      ∀ l r, splitByOperator (trimC e) orOp = some (l, r) →
        parseQueryExpr cols e =
          (match parseQueryExpr cols l with
            | .error m => .error m
            | .ok ln =>
              match parseQueryExpr cols r with
              | .error m => .error m
              | .ok rn => .ok (.or ln rn))) := by
  constructor
  · intro l r h
    rw [parseQueryExpr]
    split
    · rename_i l2 r2 heq
      rw [h] at heq
      cases heq
      rfl
    · rename_i heq
      rw [h] at heq
      cases heq
  · intro hnone l r h
    rw [parseQueryExpr]
    split
    · rename_i l2 r2 heq
      rw [hnone] at heq
      cases heq
    · split
      · rename_i l2 r2 heq
        rw [h] at heq
        cases heq
        rfl
      · rename_i heq
        rw [h] at heq
        cases heq

/-- With no depth-0 `" and "` or `" or "`, the parser falls through to the
simple-condition parser. -/
theorem parseQueryExpr_leaf (cols : List String) (e : List Char)
    (h1 : splitByOperator (trimC e) andOp = none)
    (h2 : splitByOperator (trimC e) orOp = none) :
    parseQueryExpr cols e = parseSimpleCondition cols (trimC e) := by
  rw [parseQueryExpr]
  split
  · rename_i heq
    rw [h1] at heq
    cases heq
  · split
    · rename_i heq
      rw [h2] at heq
      cases heq
    · rfl

/-- C3 (witness): on `"b > 1 or a < 2 and c == 3"` the first depth-0
`" and "` wins: the parse is `And (Or (b > 1) (a < 2)) (c == 3)`, although
`" or "` occurs first in the text. -/
theorem c3_witness :
    splitByOperator (trimC ("b > 1 or a < 2 and c == 3".toList)) andOp =
      some ("b > 1 or a < 2".toList, "c == 3".toList) ∧
    parseQueryExpr ["a", "b", "c"] ("b > 1 or a < 2 and c == 3".toList) =
      .ok (.and (.or (.cond "b" .gt (.num 1)) (.cond "a" .lt (.num 2)))
        (.cond "c" .eq (.num 3))) := by
  refine ⟨by rfl, ?_⟩
  have htop := (c3_and_precedence ["a", "b", "c"]
    ("b > 1 or a < 2 and c == 3".toList)).1
    ("b > 1 or a < 2".toList) ("c == 3".toList) (by rfl)
  rw [htop]
  have hor := (c3_and_precedence ["a", "b", "c"] ("b > 1 or a < 2".toList)).2
    (by rfl) ("b > 1".toList) ("a < 2".toList) (by rfl)
  rw [hor]
  rw [parseQueryExpr_leaf ["a", "b", "c"] ("b > 1".toList) (by rfl) (by rfl)]
  rw [parseQueryExpr_leaf ["a", "b", "c"] ("a < 2".toList) (by rfl) (by rfl)]
  rw [parseQueryExpr_leaf ["a", "b", "c"] ("c == 3".toList) (by rfl) (by rfl)]
  rfl

/-! ## C7: merge result columns -/

/-- C7 (confirmed): the merge result's columns are, in order, the join-key
columns once under the left key names, then the left non-key columns with
their original names, then the right non-key columns, where a right column
gets the second suffix exactly when its name equals a left non-key column's
name. -/
theorem c7_merge_columns (l r : DataFrame) (o : MergeOpts)
    (lks rks : List String) (f : DataFrame)
    (hres : resolveKeys l r o = .ok (lks, rks))
    (hok : merge l r o = .ok f) :
    f.columns = lks ++ l.columns.filter (fun c => ¬ lks.contains c) ++
      (r.columns.filter (fun c => ¬ rks.contains c)).map
        (fun c => if l.columns.contains c ∧ ¬ lks.contains c then
          c ++ o.suffixes.2 else c) := by
  unfold merge at hok
  rw [hres] at hok
  have h := (mkDataFrame_ok hok).1
  rw [h]
  show (mergeRoles l r lks rks o.suffixes.2).map Prod.fst = _
  unfold mergeRoles
  rw [List.map_append, List.map_append, List.map_map, List.map_map,
    List.map_map]
  congr 1
  congr 1
  · exact List.enum_map_snd lks
  · exact List.map_id _

/-- C7 (witness): merging the spec §8 example frames on `id` yields columns
`[id, name, age]` (no suffixing needed). -/
theorem c7_witness :
    resolveKeys exLeft7 exRight7 exOnId = .ok (["id"], ["id"]) ∧
    ∃ f, merge exLeft7 exRight7 exOnId = .ok f ∧
      f.columns = ["id", "name", "age"] := by
  refine ⟨by rfl, forceFrame (merge exLeft7 exRight7 exOnId), by rfl, ?_⟩
  have h := c7_merge_columns exLeft7 exRight7 exOnId ["id"] ["id"]
    (forceFrame (merge exLeft7 exRight7 exOnId)) (by rfl) (by rfl)
  rw [h]
  rfl

/-! ## C5: inner-join cardinality -/

theorem dedupAppend_cons (acc : List String) (k0 : String)
    (rest : List String) :
    dedupAppend acc (k0 :: rest) =
      dedupAppend (if acc.contains k0 then acc else acc ++ [k0]) rest := rfl

theorem multiGet_addMulti_same (m : List (String × List Nat)) (k : String)
    (i : Nat) : multiGet (addMulti m k i) k = multiGet m k ++ [i] := by
  induction m with
  | nil => simp [addMulti, multiGet, alookup]
  | cons p rest ih =>
    unfold addMulti
    by_cases h : p.1 = k
    · rw [if_pos h]
      simp [multiGet, alookup, h]
    · rw [if_neg h]
      show multiGet (p :: addMulti rest k i) k = multiGet (p :: rest) k ++ [i]
      simp only [multiGet, alookup, if_neg h]
      exact ih

theorem multiGet_addMulti_ne (m : List (String × List Nat)) (k k2 : String)
    (i : Nat) (h : k2 ≠ k) :
    multiGet (addMulti m k i) k2 = multiGet m k2 := by
  induction m with
  | nil => simp [addMulti, multiGet, alookup, Ne.symm h]
  | cons p rest ih =>
    unfold addMulti
    by_cases h2 : p.1 = k
    · rw [if_pos h2]
      have h3 : ¬ p.1 = k2 := by rw [h2]; exact Ne.symm h
      show multiGet ((p.1, p.2 ++ [i]) :: rest) k2 = multiGet (p :: rest) k2
      simp [multiGet, alookup, h3]
    · rw [if_neg h2]
      show multiGet (p :: addMulti rest k i) k2 = multiGet (p :: rest) k2
      by_cases h3 : p.1 = k2
      · simp [multiGet, alookup, h3]
      · simp only [multiGet, alookup, if_neg h3]
        exact ih

theorem multiGet_buildFrom_length (ks : List String) (k : String) :
    ∀ (pos : Nat) (m : List (String × List Nat)),
    (multiGet (buildMultiFrom ks pos m) k).length =
      (multiGet m k).length + ks.count k := by
  induction ks with
  | nil => intro pos m; simp [buildMultiFrom]
  | cons k0 rest ih =>
    intro pos m
    unfold buildMultiFrom
    rw [ih]
    by_cases h : k = k0
    · subst h
      rw [multiGet_addMulti_same]
      simp [List.count_cons]
      omega
    · rw [multiGet_addMulti_ne _ _ _ _ h]
      simp [List.count_cons, h]

theorem multiGet_buildMulti_length (ks : List String) (k : String) :
    (multiGet (buildMulti ks) k).length = ks.count k := by
  unfold buildMulti
  rw [multiGet_buildFrom_length]
  simp [multiGet, alookup]

theorem keys_addMulti (m : List (String × List Nat)) (k : String) (i : Nat) :
    (addMulti m k i).map Prod.fst =
      if (m.map Prod.fst).contains k then m.map Prod.fst
      else m.map Prod.fst ++ [k] := by
  induction m with
  | nil => simp [addMulti]
  | cons p rest ih =>
    by_cases h : p.1 = k
    · simp [addMulti, h]
    · have hbeq : (k == p.1) = false := by
        simp [Ne.symm h]
      simp only [addMulti, if_neg h, List.map_cons, List.contains_cons, hbeq,
        Bool.false_or, ih]
      split <;> rfl

theorem keys_buildFrom (ks : List String) :
    ∀ (pos : Nat) (m : List (String × List Nat)),
    (buildMultiFrom ks pos m).map Prod.fst =
      dedupAppend (m.map Prod.fst) ks := by
  induction ks with
  | nil => intro pos m; rfl
  | cons k0 rest ih =>
    intro pos m
    unfold buildMultiFrom
    rw [ih, keys_addMulti, dedupAppend_cons]

theorem mem_dedupAppend (x : String) (ks : List String) :
    ∀ (acc : List String), x ∈ dedupAppend acc ks ↔ x ∈ acc ∨ x ∈ ks := by
  induction ks with
  | nil => intro acc; simp [dedupAppend]
  | cons k0 rest ih =>
    intro acc
    unfold dedupAppend
    by_cases h : acc.contains k0
    · rw [if_pos h, ih]
      have hk0 : k0 ∈ acc := by
        rw [List.contains_iff_exists_mem_beq] at h
        obtain ⟨a, ha, hbeq⟩ := h
        rwa [show k0 = a from beq_iff_eq.mp hbeq]
      constructor
      · rintro (h2 | h2)
        · exact Or.inl h2
        · exact Or.inr (List.mem_cons_of_mem _ h2)
      · rintro (h2 | h2)
        · exact Or.inl h2
        · rcases List.mem_cons.mp h2 with rfl | h3
          · exact Or.inl hk0
          · exact Or.inr h3
    · rw [if_neg h, ih]
      simp only [List.mem_append, List.mem_singleton, List.mem_cons]
      tauto

theorem dedupAppend_split (ks : List String) :
    ∀ (acc : List String), ∃ extra, dedupAppend acc ks = acc ++ extra ∧
      ∀ x ∈ extra, x ∉ acc := by
  induction ks with
  | nil => intro acc; exact ⟨[], by simp [dedupAppend], by simp⟩
  | cons k0 rest ih =>
    intro acc
    unfold dedupAppend
    by_cases h : acc.contains k0
    · rw [if_pos h]
      exact ih acc
    · rw [if_neg h]
      obtain ⟨extra, heq, hnot⟩ := ih (acc ++ [k0])
      refine ⟨k0 :: extra, by rw [heq]; simp, ?_⟩
      intro x hx
      rcases List.mem_cons.mp hx with rfl | h2
      · intro hmem
        exact h (List.contains_iff_exists_mem_beq.mpr ⟨x, hmem, beq_iff_eq.mpr rfl⟩)
      · intro hmem
        exact hnot x h2 (List.mem_append.mpr (Or.inl hmem))

theorem dedupAppend_of_nodup (ks : List String) :
    ∀ (acc : List String), ks.Nodup → (∀ x ∈ ks, x ∉ acc) →
      dedupAppend acc ks = acc ++ ks := by
  induction ks with
  | nil => intro acc _ _; simp [dedupAppend]
  | cons k0 rest ih =>
    intro acc hnd hdisj
    unfold dedupAppend
    rw [if_neg ?hne]
    case hne =>
      intro hc
      rw [List.contains_iff_exists_mem_beq] at hc
      obtain ⟨a, ha, hbeq⟩ := hc
      exact hdisj k0 (List.mem_cons_self _ _) (beq_iff_eq.mp hbeq ▸ ha)
    rw [ih (acc ++ [k0]) (List.Nodup.of_cons hnd) ?_]
    · simp
    · intro x hx hmem
      rcases List.mem_append.mp hmem with h2 | h2
      · exact hdisj x (List.mem_cons_of_mem _ hx) h2
      · rcases List.mem_singleton.mp h2 with rfl
        exact (List.nodup_cons.mp hnd).1 hx

theorem dedupAppend_nodup (ks : List String) :
    ∀ (acc : List String), acc.Nodup → (dedupAppend acc ks).Nodup := by
  induction ks with
  | nil => intro acc h; exact h
  | cons k0 rest ih =>
    intro acc hnd
    unfold dedupAppend
    by_cases h : acc.contains k0
    · rw [if_pos h]
      exact ih acc hnd
    · rw [if_neg h]
      refine ih (acc ++ [k0]) ?_
      rw [List.nodup_append]
      refine ⟨hnd, List.nodup_singleton _, ?_⟩
      intro x hx hx2
      rcases List.mem_singleton.mp hx2 with rfl
      exact h (List.contains_iff_exists_mem_beq.mpr ⟨x, hx, beq_iff_eq.mpr rfl⟩)

theorem flatMap_pairs_length (L R : List Nat) :
    (L.map (List.length ∘ fun left => R.map
      (fun right => ((some left : Option Nat), (some right : Option Nat))))).sum =
      L.length * R.length := by
  induction L with
  | nil => simp
  | cons x rest ih =>
    simp only [List.map_cons, List.sum_cons, Function.comp, List.length_map,
      List.length_cons]
    rw [ih]
    ring

theorem emitForKey_inner_length (L R : List Nat) :
    (emitForKey .inner L R).length = L.length * R.length := by
  unfold emitForKey
  by_cases h : L = [] ∨ R = []
  · rw [if_pos ⟨rfl, h⟩]
    rcases h with rfl | rfl
    · simp
    · simp
  · push_neg at h
    rw [if_neg (by simp [h.1, h.2]), if_neg (by simp [h.1]),
      if_neg (by simp [h.2]), List.length_flatMap]
    exact flatMap_pairs_length L R

theorem sum_map_filter_of_zero (g : String → Nat) (p : String → Bool)
    (l : List String) (h : ∀ x ∈ l, p x = false → g x = 0) :
    ((l.filter p).map g).sum = (l.map g).sum := by
  induction l with
  | nil => rfl
  | cons x rest ih =>
    have ih2 := ih (fun y hy => h y (List.mem_cons_of_mem _ hy))
    by_cases hp : p x
    · rw [List.filter_cons_of_pos hp]
      simp [ih2]
    · rw [List.filter_cons_of_neg (by simpa using hp)]
      have := h x (List.mem_cons_self _ _) (by simpa using hp)
      simp [ih2, this]

theorem sum_map_zero (g : String → Nat) (l : List String)
    (h : ∀ x ∈ l, g x = 0) : (l.map g).sum = 0 := by
  induction l with
  | nil => rfl
  | cons x rest ih =>
    simp [h x (List.mem_cons_self _ _), ih (fun y hy => h y (List.mem_cons_of_mem _ hy))]

/-- C5 (confirmed): for an inner merge, the result row count is the sum, over
the distinct composite keys present on both sides, of
`leftCount(k) * rightCount(k)` — the full cartesian product per key. -/
theorem c5_inner_cardinality (l r : DataFrame) (o : MergeOpts)
    (lks rks : List String) (f : DataFrame)
    (hhow : o.how = .inner)
    (hres : resolveKeys l r o = .ok (lks, rks))
    (hok : merge l r o = .ok f) :
    f.index.length =
      (((firstDedup (rowKeys l lks)).filter
        (fun k => (rowKeys r rks).contains k)).map
        (fun k => (rowKeys l lks).count k * (rowKeys r rks).count k)).sum := by
  unfold merge at hok
  rw [hres] at hok
  have hidx := (mkDataFrame_ok hok).2.1
  simp only [Option.getD_some] at hidx
  rw [hidx, List.length_map, List.length_flatMap]
  set lkeys := rowKeys l lks with hlk
  set rkeys := rowKeys r rks with hrk
  set g : String → Nat := fun k => lkeys.count k * rkeys.count k with hg
  have hterm : ∀ k, (emitForKey o.how (multiGet (buildMulti lkeys) k)
      (multiGet (buildMulti rkeys) k)).length = g k := by
    intro k
    rw [hhow, emitForKey_inner_length, multiGet_buildMulti_length,
      multiGet_buildMulti_length]
  have hmaplen : ∀ (keys : List String),
      (keys.map (List.length ∘ fun k => emitForKey o.how
        (multiGet (buildMulti lkeys) k)
        (multiGet (buildMulti rkeys) k))).sum = (keys.map g).sum := by
    intro keys
    congr 1
    exact List.map_congr_left (fun k _ => hterm k)
  rw [hmaplen]
  -- the iterated key set
  have hkeysl : (buildMulti lkeys).map Prod.fst = firstDedup lkeys := by
    unfold buildMulti firstDedup
    rw [keys_buildFrom]
    rfl
  have hkeysr : (buildMulti rkeys).map Prod.fst = firstDedup rkeys := by
    unfold buildMulti firstDedup
    rw [keys_buildFrom]
    rfl
  have hnodl : (firstDedup lkeys).Nodup := dedupAppend_nodup _ _ List.nodup_nil
  have hall : mergeAllKeys o.how ((buildMulti lkeys).map Prod.fst)
      ((buildMulti rkeys).map Prod.fst) =
      dedupAppend (firstDedup lkeys) (firstDedup rkeys) := by
    rw [hhow, hkeysl, hkeysr]
    unfold mergeAllKeys
    rw [if_pos (Or.inl rfl), if_pos (Or.inl rfl)]
    rw [dedupAppend_of_nodup _ _ hnodl (by simp)]
    rfl
  rw [hall]
  obtain ⟨extra, hsplit, hnotin⟩ := dedupAppend_split (firstDedup rkeys)
    (firstDedup lkeys)
  rw [hsplit, List.map_append, List.sum_append]
  have hextra : (extra.map g).sum = 0 := by
    refine sum_map_zero g extra ?_
    intro x hx
    have hxl : x ∉ lkeys := by
      intro hmem
      exact hnotin x hx ((mem_dedupAppend x lkeys []).mpr (Or.inr hmem))
    rw [hg]
    simp [List.count_eq_zero.mpr hxl]
  rw [hextra, Nat.add_zero]
  have hfz : (((firstDedup lkeys).filter (fun k => rkeys.contains k)).map g).sum =
      ((firstDedup lkeys).map g).sum := by
    refine sum_map_filter_of_zero g _ _ ?_
    intro x _ hcf
    have hxr : x ∉ rkeys := by
      intro hmem
      rw [show (rkeys.contains x = false) ↔ ¬ (rkeys.contains x = true) by simp] at hcf
      exact hcf (List.contains_iff_exists_mem_beq.mpr ⟨x, hmem, beq_iff_eq.mpr rfl⟩)
    rw [hg]
    simp [List.count_eq_zero.mpr hxr]
  exact hfz.symm

/-- C5 (witness): the spec §8 example — `id = [1,1,2]` inner-joined with
`id = [1,1,3]` — yields `2 × 2 = 4` rows. -/
theorem c5_witness :
    ∃ f, merge exLeft5 exRight5 exOnId = .ok f ∧ f.index.length = 4 ∧
      (((firstDedup (rowKeys exLeft5 ["id"])).filter
        (fun k => (rowKeys exRight5 ["id"]).contains k)).map
        (fun k => (rowKeys exLeft5 ["id"]).count k *
          (rowKeys exRight5 ["id"]).count k)).sum = 4 := by
  refine ⟨forceFrame (merge exLeft5 exRight5 exOnId), by rfl, ?_, by rfl⟩
  have h := c5_inner_cardinality exLeft5 exRight5 exOnId ["id"] ["id"]
    (forceFrame (merge exLeft5 exRight5 exOnId)) rfl (by rfl) (by rfl)
  rw [h]
  rfl

/-! ## C1: position of missing values after sortValues -/

theorem orderedInsert_pairwise {α : Type} (p : α → Bool) (r : α → α → Prop)
    [DecidableRel r]
    (h1 : ∀ x y, p x = false → p y = true → ¬ r x y)
    (h2 : ∀ x y, p x = true → p y = false → r x y)
    (x : α) (m : List α)
    (hm : m.Pairwise (fun u v => p u = false → p v = false)) :
    (List.orderedInsert r x m).Pairwise (fun u v => p u = false → p v = false) := by
  induction m with
  | nil => simp
  | cons y ys ih =>
    rw [List.orderedInsert]
    rw [List.pairwise_cons] at hm
    by_cases hr : r x y
    · rw [if_pos hr]
      rw [List.pairwise_cons]
      refine ⟨?_, List.pairwise_cons.mpr hm⟩
      intro z hz hpx
      have hpy : p y = false := by
        by_cases hpy2 : p y = true
        · exact absurd hr (h1 x y hpx hpy2)
        · simpa using hpy2
      rcases List.mem_cons.mp hz with rfl | hz2
      · exact hpy
      · exact hm.1 z hz2 hpy
    · rw [if_neg hr]
      rw [List.pairwise_cons]
      refine ⟨?_, ih hm.2⟩
      intro z hz hpy
      rcases (List.mem_orderedInsert _).mp hz with heq | hz2
      · rw [heq]
        by_cases hpx : p x = true
        · exact absurd (h2 x y hpx hpy) hr
        · simpa using hpx
      · exact hm.1 z hz2 hpy

theorem jsStableSort_pairwise {α : Type} (cmp : α → α → Int) (p : α → Bool)
    (h1 : ∀ x y, p x = false → p y = true → ¬ (cmp x y ≤ 0))
    (h2 : ∀ x y, p x = true → p y = false → cmp x y ≤ 0)
    (l : List α) :
    (jsStableSort cmp l).Pairwise (fun u v => p u = false → p v = false) := by
  induction l with
  | nil => simp [jsStableSort]
  | cons x xs ih =>
    show (List.orderedInsert _ x (List.insertionSort _ xs)).Pairwise _
    exact orderedInsert_pairwise p (fun a b => cmp a b ≤ 0) h1 h2 x _ ih

/-- The two missing-status classes are never `===`-equal values. -/
theorem missing_ne {a b : Val} (h : isMissingB a ≠ isMissingB b) : a ≠ b :=
  fun he => h (he ▸ rfl)

theorem cmp1_miss_nonmiss (asc : Bool) {a b : Val} (ha : isMissingB a = true)
    (hb : isMissingB b = false) :
    cmp1 asc a b = if asc then 1 else -1 := by
  unfold cmp1
  rw [if_neg (missing_ne (by rw [ha, hb]; simp)), if_pos (by rw [ha])]

theorem cmp1_nonmiss_miss (asc : Bool) {a b : Val} (ha : isMissingB a = false)
    (hb : isMissingB b = true) :
    cmp1 asc a b = if asc then -1 else 1 := by
  unfold cmp1
  rw [if_neg (missing_ne (by rw [ha, hb]; simp)),
    if_neg (by rw [ha]; simp), if_pos (by rw [hb])]

theorem cmp2_miss_nonmiss (asc : Bool) {a1 b1 a2 b2 : Val}
    (ha : isMissingB a1 = true) (hb : isMissingB b1 = false) :
    cmp2 asc a1 b1 a2 b2 = if asc then 1 else -1 := by
  unfold cmp2
  rw [if_pos (missing_ne (by rw [ha, hb]; simp)), if_pos (by rw [ha])]

theorem cmp2_nonmiss_miss (asc : Bool) {a1 b1 a2 b2 : Val}
    (ha : isMissingB a1 = false) (hb : isMissingB b1 = true) :
    cmp2 asc a1 b1 a2 b2 = if asc then -1 else 1 := by
  unfold cmp2
  rw [if_pos (missing_ne (by rw [ha, hb]; simp)),
    if_neg (by rw [ha]; simp), if_pos (by rw [hb])]

theorem cmpKeys_miss_nonmiss (asc : Bool) {a b : Val} (as_ bs : List Val)
    (ha : isMissingB a = true) (hb : isMissingB b = false) :
    cmpKeys asc (a :: as_) (b :: bs) = if asc then 1 else -1 := by
  unfold cmpKeys
  rw [show (b :: bs).headD .undefV = b from rfl]
  rw [if_neg (missing_ne (by rw [ha, hb]; simp)), if_pos (by rw [ha])]

theorem cmpKeys_nonmiss_miss (asc : Bool) {a b : Val} (as_ bs : List Val)
    (ha : isMissingB a = false) (hb : isMissingB b = true) :
    cmpKeys asc (a :: as_) (b :: bs) = if asc then -1 else 1 := by
  unfold cmpKeys
  rw [show (b :: bs).headD .undefV = b from rfl]
  rw [if_neg (missing_ne (by rw [ha, hb]; simp)),
    if_neg (by rw [ha]; simp), if_pos (by rw [hb])]

/-- Packaged partition result: a comparator that sends a missing row strictly
after (ascending) or strictly before (descending) every non-missing row over
the class function `vf` yields a sorted list where, ascending, no missing
element precedes a non-missing one, and descending the reverse. -/
theorem jsStableSort_missing_block (cmp : Nat → Nat → Int) (vf : Nat → Val)
    (asc : Bool)
    (hc1 : ∀ a b, isMissingB (vf a) = true → isMissingB (vf b) = false →
      cmp a b = if asc then 1 else -1)
    (hc2 : ∀ a b, isMissingB (vf a) = false → isMissingB (vf b) = true →
      cmp a b = if asc then -1 else 1)
    (l : List Nat) :
    (jsStableSort cmp l).Pairwise (fun i j =>
      if asc then (isMissingB (vf i) = true → isMissingB (vf j) = true)
      else (isMissingB (vf i) = false → isMissingB (vf j) = false)) := by
  cases asc with
  | false =>
    have h := jsStableSort_pairwise cmp (fun i => isMissingB (vf i))
      (fun x y hx hy => by rw [hc2 x y hx hy]; decide)
      (fun x y hx hy => by rw [hc1 x y hx hy]; decide) l
    exact h.imp (fun {i j} hij => by simpa using hij)
  | true =>
    have h := jsStableSort_pairwise cmp (fun i => !isMissingB (vf i))
      (fun x y hx hy => by
        rw [hc1 x y (by simpa using hx) (by simpa using hy)]; decide)
      (fun x y hx hy => by
        rw [hc2 x y (by simpa using hx) (by simpa using hy)]; decide) l
    refine h.imp (fun {i j} hij => ?_)
    simp only [if_true]
    intro hmi
    have := hij (by simp [hmi])
    simpa using this

/-- The values of column `c` after `_reorderByIndices` are the gathered
original values. -/
theorem reorder_column {df : DataFrame} {perm : List Nat} {c : String}
    {s : Series} {f : DataFrame} {s2 : Series}
    (hs : alookup c df.data = some s)
    (hok : reorderByIndices df perm = .ok f)
    (hs2 : alookup c f.data = some s2) :
    s2.values = perm.map (fun i => s.values.getD i .undefV) := by
  unfold reorderByIndices at hok
  have hdata := (mkDataFrame_ok hok).2.2
  rw [List.map_map] at hdata
  rw [show ((fun p : String × List Val => (p.1, mkSeries p.1 p.2)) ∘
    (fun p : String × Series =>
      (p.1, perm.map (fun i => p.2.values.getD i .undefV)))) =
    (fun p : String × Series =>
      (p.1, (fun nm sr => mkSeries nm
        (perm.map (fun i => sr.values.getD i .undefV))) p.1 p.2)) from rfl] at hdata
  rw [hdata, alookup_map_entry df.data
    (fun nm sr => mkSeries nm (perm.map (fun i => sr.values.getD i .undefV))) c,
    hs] at hs2
  cases Option.some.inj hs2
  rfl

/-- C1 (counterexample): sorting the single column `a = [1, null]`
descending (software path) returns `[null, 1]` — the missing row precedes the
non-missing row, refuting "Missing sorts after non-missing regardless of
`ascending`". -/
theorem c1_counterexample :
    (∃ f, sortValues exFrame1 ["a"] false false = .ok f ∧
      ∃ s2, alookup "a" f.data = some s2 ∧ s2.values = [.null, .num 1]) ∧
    ¬ ([Val.null, Val.num 1].Pairwise
      (fun u v => isMissingB u = true → isMissingB v = true)) := by
  refine ⟨⟨forceFrame (sortValues exFrame1 ["a"] false false), by rfl,
    ⟨mkSeries "a" [.null, .num 1], by rfl, by rfl⟩⟩, by decide⟩

/-- C1 (amended): under the software comparator, rows whose value in the
first requested key column is Missing sort after all rows with a non-missing
first-key value when `ascending = true`, and before all of them when
`ascending = false` (for any number of key columns). -/
theorem c1_sort_missing_position (df : DataFrame) (sortCols : List String)
    (c : String) (asc : Bool) (f : DataFrame) (s s2 : Series)
    (hc : sortCols.head? = some c)
    (hs : alookup c df.data = some s)
    (hok : sortValues df sortCols asc false = .ok f)
    (hs2 : alookup c f.data = some s2) :
    s2.values.Pairwise (fun u v =>
      if asc then (isMissingB u = true → isMissingB v = true)
      else (isMissingB u = false → isMissingB v = false)) := by
  match sortCols, hc with
  | [c0], hc =>
    cases Option.some.inj hc
    simp only [sortValues, hs] at hok
    rw [if_neg (by simp), if_neg (by simp)] at hok
    have hv := reorder_column hs hok hs2
    rw [hv, List.pairwise_map]
    exact jsStableSort_missing_block _ (fun i => s.values.getD i .undefV) asc
      (fun a b ha hb => cmp1_miss_nonmiss asc ha hb)
      (fun a b ha hb => cmp1_nonmiss_miss asc ha hb) _
  | [c0, c1], hc =>
    cases Option.some.inj hc
    match h2 : alookup c1 df.data with
    | none =>
      simp only [sortValues, hs, h2] at hok
      exact absurd hok (by simp)
    | some t =>
      simp only [sortValues, hs, h2] at hok
      rw [if_neg (by simp), if_neg (by simp)] at hok
      have hv := reorder_column hs hok hs2
      rw [hv, List.pairwise_map]
      exact jsStableSort_missing_block _ (fun i => s.values.getD i .undefV) asc
        (fun a b ha hb => cmp2_miss_nonmiss asc ha hb)
        (fun a b ha hb => cmp2_nonmiss_miss asc ha hb) _
  | c0 :: c1 :: c2 :: rest, hc =>
    cases Option.some.inj hc
    match hfind : (c :: c1 :: c2 :: rest).find?
        (fun cc => (alookup cc df.data).isNone) with
    | some cc =>
      simp only [sortValues, hfind] at hok
      exact absurd hok (by simp)
    | none =>
      simp only [sortValues, hfind] at hok
      have hv := reorder_column hs hok hs2
      rw [hv, List.pairwise_map]
      refine jsStableSort_missing_block _ (fun i => s.values.getD i .undefV) asc
        ?_ ?_ _
      · intro a b ha hb
        show cmpKeys asc ((c :: c1 :: c2 :: rest).map _)
          ((c :: c1 :: c2 :: rest).map _) = _
        simp only [List.map_cons]
        rw [show (((alookup c df.data).map Series.values).getD []).getD a .undefV
          = s.values.getD a .undefV by rw [hs]; rfl]
        rw [show (((alookup c df.data).map Series.values).getD []).getD b .undefV
          = s.values.getD b .undefV by rw [hs]; rfl]
        exact cmpKeys_miss_nonmiss asc _ _ ha hb
      · intro a b ha hb
        show cmpKeys asc ((c :: c1 :: c2 :: rest).map _)
          ((c :: c1 :: c2 :: rest).map _) = _
        simp only [List.map_cons]
        rw [show (((alookup c df.data).map Series.values).getD []).getD a .undefV
          = s.values.getD a .undefV by rw [hs]; rfl]
        rw [show (((alookup c df.data).map Series.values).getD []).getD b .undefV
          = s.values.getD b .undefV by rw [hs]; rfl]
        exact cmpKeys_nonmiss_miss asc _ _ ha hb

/-- C1 (witness): sorting `a = [1, null]` ascending (software path) puts the
missing row last. -/
theorem c1_witness :
    ∃ f, sortValues exFrame1 ["a"] true false = .ok f ∧
      ∃ s2, alookup "a" f.data = some s2 ∧ s2.values = [.num 1, .null] ∧
        s2.values.Pairwise
          (fun u v => isMissingB u = true → isMissingB v = true) := by
  refine ⟨forceFrame (sortValues exFrame1 ["a"] true false), by rfl,
    mkSeries "a" [.num 1, .null], by rfl, by rfl, ?_⟩
  have h := c1_sort_missing_position exFrame1 ["a"] "a" true
    (forceFrame (sortValues exFrame1 ["a"] true false))
    (mkSeries "a" [.num 1, .null]) (mkSeries "a" [.num 1, .null])
    (by rfl) (by rfl) (by rfl) (by rfl)
  exact h.imp (fun {u v} huv => by simpa using huv)

/-! ## C2: accelerated backend vs software path -/

theorem orderedInsert_congr {α : Type} (r1 r2 : α → α → Prop)
    [DecidableRel r1] [DecidableRel r2] (x : α) (m : List α)
    (h : ∀ y ∈ m, (r1 x y ↔ r2 x y)) :
    List.orderedInsert r1 x m = List.orderedInsert r2 x m := by
  induction m with
  | nil => rfl
  | cons y ys ih =>
    rw [List.orderedInsert, List.orderedInsert]
    by_cases hr : r1 x y
    · rw [if_pos hr, if_pos ((h y (List.mem_cons_self _ _)).mp hr)]
    · rw [if_neg hr,
        if_neg (fun h2 => hr ((h y (List.mem_cons_self _ _)).mpr h2)),
        ih (fun z hz => h z (List.mem_cons_of_mem _ hz))]

theorem insertionSort_congr {α : Type} (r1 r2 : α → α → Prop)
    [DecidableRel r1] [DecidableRel r2] (l : List α)
    (h : ∀ x ∈ l, ∀ y ∈ l, (r1 x y ↔ r2 x y)) :
    List.insertionSort r1 l = List.insertionSort r2 l := by
  induction l with
  | nil => rfl
  | cons x xs ih =>
    show List.orderedInsert r1 x (List.insertionSort r1 xs) =
      List.orderedInsert r2 x (List.insertionSort r2 xs)
    rw [ih (fun a ha b hb =>
      h a (List.mem_cons_of_mem _ ha) b (List.mem_cons_of_mem _ hb))]
    refine orderedInsert_congr r1 r2 x _ ?_
    intro y hy
    have hy2 : y ∈ xs := (List.perm_insertionSort r2 xs).mem_iff.mp hy
    exact h x (List.mem_cons_self _ _) y (List.mem_cons_of_mem _ hy2)

theorem jsStableSort_congr {α : Type} (ca cb : α → α → Int) (l : List α)
    (h : ∀ x ∈ l, ∀ y ∈ l, ca x y = cb x y) :
    jsStableSort ca l = jsStableSort cb l := by
  unfold jsStableSort
  exact insertionSort_congr _ _ l (fun x hx y hy => by rw [h x hx y hy])

/-- On two plain numbers the single-column software comparator agrees with
the modelled backend's f64 comparator. -/
theorem cmp1_num_eq_f64 (asc : Bool) (x y : ℚ) :
    cmp1 asc (.num x) (.num y) = f64Cmp asc (some x) (some y) := by
  have hf : f64Cmp asc (some x) (some y) =
      if x < y then (if asc then -1 else 1)
      else if y < x then (if asc then 1 else -1) else 0 := rfl
  have hlt : jsLt (Val.num x) (Val.num y) = decide (x < y) := by
    simp [jsLt, jsLtR, toNum?]
  have hgt : jsGt (Val.num x) (Val.num y) = decide (y < x) := by
    simp [jsGt, jsLtR, toNum?]
  rcases lt_trichotomy x y with h | h | h
  · have hne : Val.num x ≠ Val.num y := by
      intro he
      cases he
      exact lt_irrefl x h
    unfold cmp1
    rw [hf, if_neg hne, if_neg (by simp [isMissingB]),
      if_neg (by simp [isMissingB])]
    simp only [hlt, hgt]
    rw [if_pos h]
    cases asc <;> simp [h, lt_asymm h]
  · cases h
    unfold cmp1
    rw [hf, if_pos rfl, if_neg (lt_irrefl x), if_neg (lt_irrefl x)]
  · have hne : Val.num x ≠ Val.num y := by
      intro he
      cases he
      exact lt_irrefl x h
    unfold cmp1
    rw [hf, if_neg hne, if_neg (by simp [isMissingB]),
      if_neg (by simp [isMissingB])]
    simp only [hlt, hgt]
    rw [if_neg (not_lt_of_gt h), if_pos h]
    cases asc <;> simp [not_lt_of_gt h, h]

/-- An int32-ranged integral rational round-trips through the `Int32Array`
conversion. -/
theorem toInt32_int (q : ℚ) (hq : q.den = 1) (hlo : -(2 ^ 31) ≤ q.num)
    (hhi : q.num < 2 ^ 31) : toInt32 q = q.num := by
  unfold toInt32 ratTrunc
  rw [hq]
  simp only [Nat.cast_one, Int.tdiv_one]
  omega

/-- On integral rationals the backend's int comparator agrees with its f64
comparator on the same values. -/
theorem intCmp_num_eq_f64 (asc : Bool) (x y : ℚ) (hx : x.den = 1)
    (hy : y.den = 1) :
    intCmp asc x.num y.num = f64Cmp asc (some x) (some y) := by
  have hxq : ((x.num : ℚ)) = x := (Rat.den_eq_one_iff x).mp hx
  have hyq : ((y.num : ℚ)) = y := (Rat.den_eq_one_iff y).mp hy
  have hlt : x.num < y.num ↔ x < y := by
    rw [← hxq, ← hyq]
    exact_mod_cast Iff.rfl
  have hgt : y.num < x.num ↔ y < x := by
    rw [← hxq, ← hyq]
    exact_mod_cast Iff.rfl
  have hf : f64Cmp asc (some x) (some y) =
      if x < y then (if asc then -1 else 1)
      else if y < x then (if asc then 1 else -1) else 0 := rfl
  unfold intCmp
  rw [hf]
  rcases lt_trichotomy x y with h | h | h
  · rw [if_pos (hlt.mpr h), if_pos h]
  · cases h
    rw [if_neg (by rw [hlt]; exact lt_irrefl x),
      if_neg (by rw [hgt]; exact lt_irrefl x), if_neg (lt_irrefl x),
      if_neg (lt_irrefl x)]
  · rw [if_neg (by rw [hlt]; exact not_lt_of_gt h), if_pos (hgt.mpr h),
      if_neg (not_lt_of_gt h), if_pos h]

theorem cmp1_self (asc : Bool) (a : Val) : cmp1 asc a a = 0 := by
  unfold cmp1
  rw [if_pos rfl]

/-- The two-column software comparator is the chain of two single-column
comparisons. -/
theorem cmp2_eq_cmp1_chain (asc : Bool) (a b a2 b2 : Val) :
    cmp2 asc a b a2 b2 =
      (if cmp1 asc a b ≠ 0 then cmp1 asc a b else cmp1 asc a2 b2) := by
  by_cases h : a = b
  · subst h
    unfold cmp2
    rw [if_neg (by simp), cmp1_self, if_neg (by simp)]
  · unfold cmp2
    rw [if_pos h]
    conv_rhs => rw [show cmp1 asc a b =
      (if isMissingB a = true then (if asc then 1 else -1)
        else if isMissingB b = true then (if asc then -1 else 1)
        else
          (let comparison : Int :=
            if jsLt a b then -1 else if jsGt a b then 1 else 0
           if asc then comparison else -comparison)) by
      unfold cmp1; rw [if_neg h]]
    by_cases hma : isMissingB a = true
    · rw [if_pos hma, if_pos hma]
      cases asc <;> simp
    · rw [if_neg hma, if_neg hma]
      by_cases hmb : isMissingB b = true
      · rw [if_pos hmb, if_pos hmb]
        cases asc <;> simp
      · rw [if_neg hmb, if_neg hmb]

theorem getD_mem_of_lt {α : Type} {l : List α} {i : Nat} (d : α)
    (h : i < l.length) : l.getD i d ∈ l := by
  rw [List.getD_eq_getElem _ _ h]
  exact List.getElem_mem h

/-- With all values plain numbers, the modelled f64 backend sort equals the
single-column software sort. -/
theorem wasmF64_eq_software (s : Series) (asc : Bool) (n : Nat)
    (hn : s.values.length = n)
    (hq : ∀ v ∈ s.values, ∃ q : ℚ, v = .num q) :
    wasmSortIndicesF64 (s.values.map encodeF64) asc =
      jsStableSort (fun a b =>
        cmp1 asc (s.values.getD a .undefV) (s.values.getD b .undefV))
        (List.range n) := by
  unfold wasmSortIndicesF64
  rw [List.length_map, hn]
  refine jsStableSort_congr _ _ _ ?_
  intro a ha b hb
  have ha2 : a < s.values.length := hn ▸ List.mem_range.mp ha
  have hb2 : b < s.values.length := hn ▸ List.mem_range.mp hb
  obtain ⟨qa, hqa⟩ := hq _ (getD_mem_of_lt .undefV ha2)
  obtain ⟨qb, hqb⟩ := hq _ (getD_mem_of_lt .undefV hb2)
  rw [getD_map_lt encodeF64 none .undefV ha2, getD_map_lt encodeF64 none .undefV hb2,
    hqa, hqb]
  exact (cmp1_num_eq_f64 asc qa qb).symm

/-- With all values int32-ranged integers, the modelled int32 backend sort
equals the single-column software sort. -/
theorem wasmI32_eq_software (s : Series) (asc : Bool) (n : Nat)
    (hn : s.values.length = n)
    (hq : ∀ v ∈ s.values, ∃ q : ℚ, v = .num q ∧
      q.den = 1 ∧ -(2 ^ 31) ≤ q.num ∧ q.num < 2 ^ 31) :
    wasmSortIndicesI32 (s.values.map encodeI32) asc =
      jsStableSort (fun a b =>
        cmp1 asc (s.values.getD a .undefV) (s.values.getD b .undefV))
        (List.range n) := by
  unfold wasmSortIndicesI32
  rw [List.length_map, hn]
  refine jsStableSort_congr _ _ _ ?_
  intro a ha b hb
  have ha2 : a < s.values.length := hn ▸ List.mem_range.mp ha
  have hb2 : b < s.values.length := hn ▸ List.mem_range.mp hb
  obtain ⟨qa, hqa, hda, hla, hha⟩ := hq _ (getD_mem_of_lt .undefV ha2)
  obtain ⟨qb, hqb, hdb, hlb, hhb⟩ := hq _ (getD_mem_of_lt .undefV hb2)
  rw [getD_map_lt encodeI32 0 .undefV ha2, getD_map_lt encodeI32 0 .undefV hb2,
    hqa, hqb]
  show intCmp asc (toInt32 qa) (toInt32 qb) = _
  rw [toInt32_int qa hda hla hha, toInt32_int qb hdb hlb hhb,
    intCmp_num_eq_f64 asc qa qb hda hdb]
  exact (cmp1_num_eq_f64 asc qa qb).symm

/-- Two-column version of `wasmF64_eq_software`. -/
theorem wasmTwoF64_eq_software (s1 s2 : Series) (asc : Bool) (n : Nat)
    (hn1 : s1.values.length = n) (hn2 : s2.values.length = n)
    (hq1 : ∀ v ∈ s1.values, ∃ q : ℚ, v = .num q)
    (hq2 : ∀ v ∈ s2.values, ∃ q : ℚ, v = .num q) :
    wasmSortTwoF64 (s1.values.map encodeF64) (s2.values.map encodeF64) asc =
      jsStableSort (fun a b =>
        cmp2 asc (s1.values.getD a .undefV) (s1.values.getD b .undefV)
          (s2.values.getD a .undefV) (s2.values.getD b .undefV))
        (List.range n) := by
  unfold wasmSortTwoF64
  rw [List.length_map, hn1]
  refine jsStableSort_congr _ _ _ ?_
  intro a ha b hb
  have ha1 : a < s1.values.length := hn1 ▸ List.mem_range.mp ha
  have hb1 : b < s1.values.length := hn1 ▸ List.mem_range.mp hb
  have ha2 : a < s2.values.length := hn2 ▸ List.mem_range.mp ha
  have hb2 : b < s2.values.length := hn2 ▸ List.mem_range.mp hb
  obtain ⟨qa1, hqa1⟩ := hq1 _ (getD_mem_of_lt .undefV ha1)
  obtain ⟨qb1, hqb1⟩ := hq1 _ (getD_mem_of_lt .undefV hb1)
  obtain ⟨qa2, hqa2⟩ := hq2 _ (getD_mem_of_lt .undefV ha2)
  obtain ⟨qb2, hqb2⟩ := hq2 _ (getD_mem_of_lt .undefV hb2)
  rw [getD_map_lt encodeF64 none .undefV ha1, getD_map_lt encodeF64 none .undefV hb1,
    getD_map_lt encodeF64 none .undefV ha2, getD_map_lt encodeF64 none .undefV hb2,
    hqa1, hqb1, hqa2, hqb2, cmp2_eq_cmp1_chain,
    cmp1_num_eq_f64 asc qa1 qb1, cmp1_num_eq_f64 asc qa2 qb2]
  rfl

/-- Two-column version of `wasmI32_eq_software`. -/
theorem wasmTwoI32_eq_software (s1 s2 : Series) (asc : Bool) (n : Nat)
    (hn1 : s1.values.length = n) (hn2 : s2.values.length = n)
    (hq1 : ∀ v ∈ s1.values, ∃ q : ℚ, v = .num q ∧
      q.den = 1 ∧ -(2 ^ 31) ≤ q.num ∧ q.num < 2 ^ 31)
    (hq2 : ∀ v ∈ s2.values, ∃ q : ℚ, v = .num q ∧
      q.den = 1 ∧ -(2 ^ 31) ≤ q.num ∧ q.num < 2 ^ 31) :
    wasmSortTwoI32 (s1.values.map encodeI32) (s2.values.map encodeI32) asc =
      jsStableSort (fun a b =>
        cmp2 asc (s1.values.getD a .undefV) (s1.values.getD b .undefV)
          (s2.values.getD a .undefV) (s2.values.getD b .undefV))
        (List.range n) := by
  unfold wasmSortTwoI32
  rw [List.length_map, hn1]
  refine jsStableSort_congr _ _ _ ?_
  intro a ha b hb
  have ha1 : a < s1.values.length := hn1 ▸ List.mem_range.mp ha
  have hb1 : b < s1.values.length := hn1 ▸ List.mem_range.mp hb
  have ha2 : a < s2.values.length := hn2 ▸ List.mem_range.mp ha
  have hb2 : b < s2.values.length := hn2 ▸ List.mem_range.mp hb
  obtain ⟨qa1, hqa1, hda1, hla1, hha1⟩ := hq1 _ (getD_mem_of_lt .undefV ha1)
  obtain ⟨qb1, hqb1, hdb1, hlb1, hhb1⟩ := hq1 _ (getD_mem_of_lt .undefV hb1)
  obtain ⟨qa2, hqa2, hda2, hla2, hha2⟩ := hq2 _ (getD_mem_of_lt .undefV ha2)
  obtain ⟨qb2, hqb2, hdb2, hlb2, hhb2⟩ := hq2 _ (getD_mem_of_lt .undefV hb2)
  rw [getD_map_lt encodeI32 0 .undefV ha1, getD_map_lt encodeI32 0 .undefV hb1,
    getD_map_lt encodeI32 0 .undefV ha2, getD_map_lt encodeI32 0 .undefV hb2,
    hqa1, hqb1, hqa2, hqb2, cmp2_eq_cmp1_chain,
    cmp1_num_eq_f64 asc qa1 qb1, cmp1_num_eq_f64 asc qa2 qb2]
  show (if intCmp asc (toInt32 qa1) (toInt32 qb1) ≠ 0 then
      intCmp asc (toInt32 qa1) (toInt32 qb1)
    else intCmp asc (toInt32 qa2) (toInt32 qb2)) = _
  rw [toInt32_int qa1 hda1 hla1 hha1, toInt32_int qb1 hdb1 hlb1 hhb1,
    toInt32_int qa2 hda2 hla2 hha2, toInt32_int qb2 hdb2 hlb2 hhb2,
    intCmp_num_eq_f64 asc qa1 qb1 hda1 hdb1,
    intCmp_num_eq_f64 asc qa2 qb2 hda2 hdb2]

/-- C2 (counterexample, spec-modelled backend): on the int32 column
`a = [null, 0]`, the accelerated path encodes `null` as `-2147483648`, which
a numeric sort places first ascending — but the software path places the
missing row last, so the two orderings differ. -/
theorem c2_counterexample :
    (∃ f, sortValues exFrame2 ["a"] true true = .ok f ∧
      f.index = [.int 0, .int 1] ∧
      ∃ s2, alookup "a" f.data = some s2 ∧ s2.values = [.null, .num 0]) ∧
    (∃ f, sortValues exFrame2 ["a"] true false = .ok f ∧
      f.index = [.int 1, .int 0] ∧
      ∃ s2, alookup "a" f.data = some s2 ∧ s2.values = [.num 0, .null]) :=
  ⟨⟨forceFrame (sortValues exFrame2 ["a"] true true), by rfl, by rfl,
    mkSeries "a" [.null, .num 0], by rfl, by rfl⟩,
   ⟨forceFrame (sortValues exFrame2 ["a"] true false), by rfl, by rfl,
    mkSeries "a" [.num 0, .null], by rfl, by rfl⟩⟩

/-- C2 (amended): the accelerated paths and the software comparator agree
whenever no key value is Missing — for one or two key columns, whose values
are all plain numbers, with int32 columns additionally holding integral
values in int32 range (fractional or out-of-range values are truncated by
the `Int32Array` encoding, and Missing values by either sentinel encoding,
so those genuinely diverge). -/
theorem c2_backend_equivalence (df : DataFrame) (sortCols : List String)
    (asc : Bool) (hwf : df.WFb = true)
    (hvals : ∀ c ∈ sortCols, ∃ s, alookup c df.data = some s ∧
      ∀ v ∈ s.values, ∃ q : ℚ, v = .num q ∧
        (s.dtype = .int32 → q.den = 1 ∧ -(2 ^ 31) ≤ q.num ∧ q.num < 2 ^ 31))
    (hlen : sortCols.length = 1 ∨ sortCols.length = 2) :
    sortValues df sortCols asc true = sortValues df sortCols asc false := by
  match sortCols, hlen, hvals with
  | [c], _, hvals =>
    obtain ⟨s, hs, hsv⟩ := hvals c (List.mem_cons_self _ _)
    have hmem := alookup_mem hs
    have hn : s.values.length = df.rowCount := by
      have := List.all_eq_true.mp hwf _ hmem
      simpa [DataFrame.rowCount] using this
    have hallnum : allNumOrNull s.values = true := by
      rw [allNumOrNull, List.all_eq_true]
      intro v hv
      obtain ⟨q, rfl, _⟩ := hsv v hv
      rfl
    have hq : ∀ v ∈ s.values, ∃ q : ℚ, v = .num q := by
      intro v hv
      obtain ⟨q, hq1, _⟩ := hsv v hv
      exact ⟨q, hq1⟩
    simp only [sortValues, hs]
    rw [if_neg (show ¬(s.dtype = DType.float64 ∧ allNumOrNull s.values = true ∧
        false = true) by simp)]
    rw [if_neg (show ¬(s.dtype = DType.int32 ∧ allNumOrNull s.values = true ∧
        false = true) by simp)]
    cases hdt : s.dtype with
    | float64 =>
      rw [if_pos ⟨rfl, hallnum, trivial⟩, wasmF64_eq_software s asc df.rowCount hn hq]
    | int32 =>
      rw [if_neg (by simp), if_pos ⟨rfl, hallnum, trivial⟩]
      have hqi : ∀ v ∈ s.values, ∃ q : ℚ, v = .num q ∧
          q.den = 1 ∧ -(2 ^ 31) ≤ q.num ∧ q.num < 2 ^ 31 := by
        intro v hv
        obtain ⟨q, hq1, hq2⟩ := hsv v hv
        exact ⟨q, hq1, hq2 hdt⟩
      rw [wasmI32_eq_software s asc df.rowCount hn hqi]
    | string => rw [if_neg (by simp [hdt]), if_neg (by simp [hdt])]
    | bool => rw [if_neg (by simp [hdt]), if_neg (by simp [hdt])]
    | datetime => rw [if_neg (by simp [hdt]), if_neg (by simp [hdt])]
  | [ca, cb], _, hvals =>
    obtain ⟨s1, hs1, hsv1⟩ := hvals ca (List.mem_cons_self _ _)
    obtain ⟨s2, hs2, hsv2⟩ := hvals cb
      (List.mem_cons_of_mem _ (List.mem_cons_self _ _))
    have hn1 : s1.values.length = df.rowCount := by
      have := List.all_eq_true.mp hwf _ (alookup_mem hs1)
      simpa [DataFrame.rowCount] using this
    have hn2 : s2.values.length = df.rowCount := by
      have := List.all_eq_true.mp hwf _ (alookup_mem hs2)
      simpa [DataFrame.rowCount] using this
    have hallnum1 : allNumOrNull s1.values = true := by
      rw [allNumOrNull, List.all_eq_true]
      intro v hv
      obtain ⟨q, rfl, _⟩ := hsv1 v hv
      rfl
    have hallnum2 : allNumOrNull s2.values = true := by
      rw [allNumOrNull, List.all_eq_true]
      intro v hv
      obtain ⟨q, rfl, _⟩ := hsv2 v hv
      rfl
    have hq1 : ∀ v ∈ s1.values, ∃ q : ℚ, v = .num q := by
      intro v hv
      obtain ⟨q, hqa, _⟩ := hsv1 v hv
      exact ⟨q, hqa⟩
    have hq2 : ∀ v ∈ s2.values, ∃ q : ℚ, v = .num q := by
      intro v hv
      obtain ⟨q, hqa, _⟩ := hsv2 v hv
      exact ⟨q, hqa⟩
    simp only [sortValues, hs1, hs2]
    rw [if_neg (show ¬(s1.dtype = DType.float64 ∧ s2.dtype = DType.float64 ∧
        allNumOrNull s1.values = true ∧ allNumOrNull s2.values = true ∧
        false = true) by simp)]
    rw [if_neg (show ¬(s1.dtype = DType.int32 ∧ s2.dtype = DType.int32 ∧
        allNumOrNull s1.values = true ∧ allNumOrNull s2.values = true ∧
        false = true) by simp)]
    by_cases hbf : s1.dtype = DType.float64 ∧ s2.dtype = DType.float64
    · rw [if_pos ⟨hbf.1, hbf.2, hallnum1, hallnum2, trivial⟩,
        wasmTwoF64_eq_software s1 s2 asc df.rowCount hn1 hn2 hq1 hq2]
    · by_cases hbi : s1.dtype = DType.int32 ∧ s2.dtype = DType.int32
      · rw [if_neg (fun hcon => hbf ⟨hcon.1, hcon.2.1⟩),
          if_pos ⟨hbi.1, hbi.2, hallnum1, hallnum2, trivial⟩]
        have hqi1 : ∀ v ∈ s1.values, ∃ q : ℚ, v = .num q ∧
            q.den = 1 ∧ -(2 ^ 31) ≤ q.num ∧ q.num < 2 ^ 31 := by
          intro v hv
          obtain ⟨q, hqa, hqb⟩ := hsv1 v hv
          exact ⟨q, hqa, hqb hbi.1⟩
        have hqi2 : ∀ v ∈ s2.values, ∃ q : ℚ, v = .num q ∧
            q.den = 1 ∧ -(2 ^ 31) ≤ q.num ∧ q.num < 2 ^ 31 := by
          intro v hv
          obtain ⟨q, hqa, hqb⟩ := hsv2 v hv
          exact ⟨q, hqa, hqb hbi.2⟩
        rw [wasmTwoI32_eq_software s1 s2 asc df.rowCount hn1 hn2 hqi1 hqi2]
      · rw [if_neg (fun hcon => hbf ⟨hcon.1, hcon.2.1⟩),
          if_neg (fun hcon => hbi ⟨hcon.1, hcon.2.1⟩)]
  | [], hlen, _ => rcases hlen with h | h <;> simp at h
  | ca :: cb :: cc :: rest, hlen, _ => rcases hlen with h | h <;> simp at h

/-- C2 (witness): on the all-integer int32 column `a = [3, 1, 3, -2]` the
accelerated and software paths agree (and sort ascending to
`[-2, 1, 3, 3]`, rows `3, 1, 0, 2`). -/
theorem c2_witness :
    sortValues exFrame2w ["a"] true true = sortValues exFrame2w ["a"] true false ∧
    ∃ f, sortValues exFrame2w ["a"] true true = .ok f ∧
      f.index = [.int 3, .int 1, .int 0, .int 2] := by
  refine ⟨c2_backend_equivalence exFrame2w ["a"] true (by decide) ?_ (Or.inl rfl),
    forceFrame (sortValues exFrame2w ["a"] true true), by rfl, by rfl⟩
  intro c hc
  rcases List.mem_singleton.mp hc with rfl
  refine ⟨mkSeries "a" [.num 3, .num 1, .num 3, .num (-2)], by rfl, ?_⟩
  intro v hv
  fin_cases hv
  · exact ⟨3, rfl, fun _ => by refine ⟨by decide, by decide, by decide⟩⟩
  · exact ⟨1, rfl, fun _ => by refine ⟨by decide, by decide, by decide⟩⟩
  · exact ⟨3, rfl, fun _ => by refine ⟨by decide, by decide, by decide⟩⟩
  · exact ⟨-2, rfl, fun _ => by refine ⟨by decide, by decide, by decide⟩⟩

end Boxframe
